import Mathlib

/-!
# Verification of the gdbstub RSP engine

A shallow embedding of the `gdbstub` crate (GDB Remote Serial Protocol stub):
`src/comm.rs`, `src/utils.rs`, `src/proto/mod.rs`, `src/targets.rs` and
`src/lib.rs`.  Bytes on the wire are modelled as `Nat` (values of Rust `u8`
are < 256; where a claim needs that bound it appears as a hypothesis).
`u8`/`u32`/`u64` wrapping arithmetic is made explicit with `% 2^w`.
The byte channel is modelled as append-only output: every write is collected
into a `List Nat`; transport failures are not modelled (each claim concerns
runs in which the transport delivers all bytes).
-/

set_option maxHeartbeats 1000000

/-! ## Hex and checksum primitives (`src/comm.rs`, `src/utils.rs`) -/

/-- `u8::wrapping_add`: 8-bit wrapping addition, used for the running
packet/response checksum. -/
def wrappingAdd (a b : Nat) : Nat := (a + b) % 256

/-- The running checksum of a byte sequence: wrapping add, initial 0.
This is how both `GdbStub::read_packet` and `ChecksumComm`/`ResponseWriter`
accumulate their checksums (one `wrapping_add` per byte, in order). -/
def chk (l : List Nat) : Nat := l.foldl wrappingAdd 0

/-- Lowercase hex digit character for a nibble, as produced by Rust's
`write!(.., "{:02x}", byte)` in `Comm::write_hex` (`src/comm.rs` line 31):
`0..=9 ↦ '0'..='9'`, `10..=15 ↦ 'a'..='f'`. -/
def hexDigitChar (d : Nat) : Nat := if d < 10 then 48 + d else 87 + d

/-- `Comm::write_hex`: a byte is written as exactly two lowercase hex digits
(high nibble first). -/
def writeHexByte (b : Nat) : List Nat := [hexDigitChar (b / 16), hexDigitChar (b % 16)]

/-- `Comm::write_all_hex`: each byte of `data`, in array order, written as two
hex digits with no separator. -/
def writeAllHex (data : List Nat) : List Nat := data.flatMap writeHexByte

/-- Value of one ASCII hex digit as accepted by Rust's `from_str_radix(_, 16)`:
`0-9`, `a-f`, `A-F`; anything else is rejected. -/
def hexDigitVal (c : Nat) : Option Nat :=
  if 48 ≤ c ∧ c ≤ 57 then some (c - 48)
  else if 97 ≤ c ∧ c ≤ 102 then some (c - 87)
  else if 65 ≤ c ∧ c ≤ 70 then some (c - 55)
  else none

/-- Accumulating digit fold of `from_str_radix(_, 16)`. -/
def parseHexVal : List Nat → Nat → Option Nat
  | [], acc => some acc
  | c :: r, acc =>
    match hexDigitVal c with
    | some d => parseHexVal r (16 * acc + d)
    | none => none

/-- `uN::from_str_radix(str::from_utf8(bytes)?, 16)` for an unsigned `N`-bit
integer, collapsed over the byte slice: an optional leading `+`, then at least
one hex digit, and the value must fit in `N` bits.  The `str::from_utf8` step
is folded in: a byte slice yields `Ok(v)` from the Rust pipeline iff it is all
ASCII hex (with optional `+`), and every failure (invalid UTF-8 or invalid
digit or overflow) is mapped to the same error by every caller in this crate.
Rust's unsigned `from_str_radix` rejects a leading `-` (the sign branch is
only taken for signed types) and checks overflow per digit step; since the
accumulated value is monotone, checking the final value against `2^w` is
equivalent. -/
def fromStrRadix16 (w : Nat) (bytes : List Nat) : Option Nat :=
  let digits := match bytes with
    | c :: r => if c = 43 then r else c :: r
    | [] => []
  if digits.isEmpty then none
  else
    match parseHexVal digits 0 with
    | some v => if v < 2 ^ w then some v else none
    | none => none

/-! ## `hex_decode_in_place` (`src/utils.rs`)

`for i in 0..bytes.len()/2 { bytes[i] = u8::from_str_radix(&bytes[i*2..i*2+2], 16)? }`
then return the prefix of length `len/2`.  The loop is embedded with its
in-place mutation: one `hexDecodeStep` reads `bytes[2i..2i+2]` of the current
buffer and writes index `i`. -/

/-- One iteration of the `hex_decode_in_place` loop at index `i`:
decode `bytes[2i..2i+2]` and store the byte at `bytes[i]`. -/
def hexDecodeStep (bytes : List Nat) (i : Nat) : Option (List Nat) :=
  match fromStrRadix16 8 ((bytes.drop (2 * i)).take 2) with
  | some b => some (bytes.set i b)
  | none => none

/-- The `hex_decode_in_place` loop: `n` remaining iterations, next index `i`.
The first decode error aborts (Rust's `?`). -/
def hexDecodeIter : Nat → List Nat → Nat → Option (List Nat)
  | 0, bytes, _ => some bytes
  | n + 1, bytes, i =>
    match hexDecodeStep bytes i with
    | some bs => hexDecodeIter n bs (i + 1)
    | none => none

/-- `hex_decode_in_place`: run the loop for `len/2` iterations and return the
prefix of length `len/2` of the mutated buffer (`Ok(&bytes[..len/2])`).
An odd trailing half-byte is silently dropped, as in the source. -/
def hex_decode_in_place (bytes : List Nat) : Option (List Nat) :=
  match hexDecodeIter (bytes.length / 2) bytes 0 with
  | some res => some (res.take (bytes.length / 2))
  | none => none

example : hex_decode_in_place [57, 48, 57, 48] = some [144, 144] := by decide
example : hex_decode_in_place [99, 99, 48] = some [204] := by decide
example : hex_decode_in_place [103, 48] = none := by decide
example : writeAllHex [144, 255, 0] = [57, 48, 102, 102, 48, 48] := by decide
example : fromStrRadix16 8 [43, 102] = some 15 := by decide
example : fromStrRadix16 8 [54, 98] = some 107 := by decide
example : fromStrRadix16 8 [] = none := by decide
example : chk [107] = 107 := by decide
example : chk [63] = 63 := by decide

/-! ## Protocol data model and command parser (`src/proto/mod.rs`) -/

/-- `ThreadAction`: which per-action thread selector an `H` packet targets. -/
inductive ThreadAction
  | ContStep
  | Other
deriving DecidableEq, Repr

/-- `ThreadId`: `All` (wire `-1`), `Any` (wire `0`), or a non-zero 32-bit id.
The non-zero invariant of `NonZeroU32` is enforced by the parser. -/
inductive ThreadId
  | all
  | any
  | thread (n : Nat)
deriving DecidableEq, Repr

/-- `Command`: the typed packet body produced by `Command::parse`.  Borrowed
slices are modelled as owned byte lists. -/
inductive Command
  | GetHaltReason
  | ReadRegisters
  | WriteRegisters (raw : List Nat)
  | Kill
  | ReadMem (start len : Nat)
  | WriteMem (start : Nat) (bytes : List Nat)
  | SetThread (action : ThreadAction) (thread : ThreadId)
  | Continue
  | Step
deriving DecidableEq, Repr

/-- Result of `Command::parse`.  `oob` marks the execution in which the Rust
code panics with an out-of-bounds slice index (`buf[1]` on a one-byte `H`
body); the source's own comment says "FIXME: This can panic if the packet
isn't as long as we expect." -/
inductive ParseOutcome
  | ok (c : Command)
  | malformed
  | unsupported
  | oob
deriving DecidableEq, Repr

/-- Split off the part of `l` before the first separator; also return the
remainder after the separator when one was found. -/
def splitOnce (sep : Nat → Bool) : List Nat → List Nat × Option (List Nat)
  | [] => ([], none)
  | b :: r =>
    if sep b then ([], some r)
    else
      let (p, q) := splitOnce sep r
      (b :: p, q)

/-- Rust slice `splitn(n, sep)`: at most `n` subslices, the last one carrying
the unsplit remainder.  On an empty slice it yields one empty subslice. -/
def splitn (sep : Nat → Bool) : Nat → List Nat → List (List Nat)
  | 0, _ => []
  | 1, l => [l]
  | n + 2, l =>
    match splitOnce sep l with
    | (p, none) => [p]
    | (p, some r) => p :: splitn sep (n + 1) r

/-- Is a byte a UTF-8 continuation byte (`0x80..=0xBF`)? -/
def utf8Cont (b : Nat) : Bool := 128 ≤ b ∧ b ≤ 191

/-- UTF-8 validity of a byte sequence (shortest-form, surrogate-excluding),
as checked by `str::from_utf8`.  Only the `v` packet arm observes the
distinction between invalid UTF-8 and a valid-but-unknown name. -/
def validUtf8 : List Nat → Bool
  | [] => true
  | b :: r =>
    if b ≤ 127 then validUtf8 r
    else if 194 ≤ b ∧ b ≤ 223 then
      match r with
      | c :: r' => utf8Cont c && validUtf8 r'
      | [] => false
    else if b = 224 then
      match r with
      | c :: d :: r' => (decide (160 ≤ c ∧ c ≤ 191)) && utf8Cont d && validUtf8 r'
      | _ => false
    else if 225 ≤ b ∧ b ≤ 236 then
      match r with
      | c :: d :: r' => utf8Cont c && utf8Cont d && validUtf8 r'
      | _ => false
    else if b = 237 then
      match r with
      | c :: d :: r' => (decide (128 ≤ c ∧ c ≤ 159)) && utf8Cont d && validUtf8 r'
      | _ => false
    else if 238 ≤ b ∧ b ≤ 239 then
      match r with
      | c :: d :: r' => utf8Cont c && utf8Cont d && validUtf8 r'
      | _ => false
    else if b = 240 then
      match r with
      | c :: d :: e :: r' => (decide (144 ≤ c ∧ c ≤ 191)) && utf8Cont d && utf8Cont e && validUtf8 r'
      | _ => false
    else if 241 ≤ b ∧ b ≤ 243 then
      match r with
      | c :: d :: e :: r' => utf8Cont c && utf8Cont d && utf8Cont e && validUtf8 r'
      | _ => false
    else if b = 244 then
      match r with
      | c :: d :: e :: r' => (decide (128 ≤ c ∧ c ≤ 143)) && utf8Cont d && utf8Cont e && validUtf8 r'
      | _ => false
    else false

/-- `u32::from_be` on a little-endian host: swap the four bytes of a 32-bit
value.  `ThreadId::parse` applies this to the parsed hex value ("big-endian
hex string indicating the thread ID"). -/
def swap32 (v : Nat) : Nat :=
  (v % 256) * 16777216 + (v / 256 % 256) * 65536 + (v / 65536 % 256) * 256 + v / 16777216 % 256

/-- `ThreadId::parse`: `-1` ↦ `All`, `0` ↦ `Any`, otherwise a 32-bit hex
value, byte-swapped by `u32::from_be`, which must be non-zero
(`NonZeroU32::new(..).ok_or(Malformed)`). `none` is `ParseError::Malformed`. -/
def threadIdParse (buf : List Nat) : Option ThreadId :=
  if buf = [45, 49] then some .all
  else if buf = [48] then some .any
  else
    match fromStrRadix16 32 buf with
    | some v =>
      let id := swap32 v
      if id = 0 then none else some (.thread id)
    | none => none

/-- `Command::parse` (`src/proto/mod.rs` lines 58-141).  Byte literals:
`'v' = 118`, `'m' = 109`, `'M' = 77`, `'H' = 72`, `'c' = 99`, `'g' = 103`,
`'s' = 115`, `'G' = 71`, `'?' = 63`, `'k' = 107`, `',' = 44`, `':' = 58`,
`';' = 59`.  The `H` arm reads `buf[1]` before checking the length, so a
one-byte `H` body hits an out-of-bounds index (`oob`). -/
def parseCmd (buf : List Nat) : ParseOutcome :=
  match buf with
  | [] => .malformed
  | b0 :: rest =>
    if b0 = 118 then
      -- `v`: name = first piece of splitn(2, ';'); invalid UTF-8 is
      -- Malformed via `str::from_utf8(name)?`, otherwise every name is
      -- unsupported.
      match splitn (fun b => b = 59) 2 rest with
      | name :: _ => if validUtf8 name then .unsupported else .malformed
      | [] => .malformed
    else if b0 = 109 ∨ b0 = 77 then
      -- `m` / `M`: splitn(3, ',' or ':'), then hex start and len.
      let parts := splitn (fun b => b = 44 || b = 58) 3 rest
      match parts with
      | p1 :: parts' =>
        match fromStrRadix16 64 p1 with
        | none => .malformed
        | some start =>
          match parts' with
          | [] => .malformed
          | p2 :: parts'' =>
            match fromStrRadix16 64 p2 with
            | none => .malformed
            | some len =>
              if b0 = 109 then .ok (.ReadMem start len)
              else
                match parts'' with
                | [] => .malformed
                | p3 :: _ =>
                  match hex_decode_in_place p3 with
                  | none => .malformed
                  | some bytes =>
                    -- `bytes.len() != len as usize` (64-bit host: lossless)
                    if bytes.length ≠ len then .malformed
                    else .ok (.WriteMem start bytes)
      | [] => .malformed
    else if b0 = 72 then
      -- `H`: reads `buf[1]` unconditionally.
      match rest with
      | [] => .oob
      | a :: rest' =>
        let action : Option ThreadAction :=
          if a = 99 then some .ContStep
          else if a = 103 then some .Other
          else none
        match action with
        | none => .malformed
        | some act =>
          match threadIdParse rest' with
          | some t => .ok (.SetThread act t)
          | none => .malformed
    else if b0 = 99 then
      if rest.length + 1 > 1 then .unsupported else .ok .Continue
    else if b0 = 115 then
      if rest.length + 1 > 1 then .unsupported else .ok .Step
    else if b0 = 71 then
      match hex_decode_in_place rest with
      | some raw => .ok (.WriteRegisters raw)
      | none => .malformed
    else if b0 = 63 then .ok .GetHaltReason
    else if b0 = 103 then .ok .ReadRegisters
    else if b0 = 107 then .ok .Kill
    else .unsupported

example : parseCmd [] = .malformed := by decide
example : parseCmd [63] = .ok .GetHaltReason := by decide
example : parseCmd [107] = .ok .Kill := by decide
example : parseCmd [72] = .oob := by decide
example : parseCmd [99] = .ok .Continue := by decide
example : parseCmd [115] = .ok .Step := by decide
example : parseCmd [99, 48] = .unsupported := by decide
-- "m0,4"
example : parseCmd [109, 48, 44, 52] = .ok (.ReadMem 0 4) := by decide
-- "m3e,4"
example : parseCmd [109, 51, 101, 44, 52] = .ok (.ReadMem 62 4) := by decide
-- "M10,2:cccc"
example : parseCmd [77, 49, 48, 44, 50, 58, 99, 99, 99, 99] =
    .ok (.WriteMem 16 [204, 204]) := by decide
-- "M10,3:cccc" (length mismatch)
example : parseCmd [77, 49, 48, 44, 51, 58, 99, 99, 99, 99] = .malformed := by decide
-- "m" (no len field)
example : parseCmd [109] = .malformed := by decide
-- "mzz,4" (bad hex)
example : parseCmd [109, 122, 122, 44, 52] = .malformed := by decide
-- "Hc0"
example : parseCmd [72, 99, 48] = .ok (.SetThread .ContStep .any) := by decide
-- "Hg-1"
example : parseCmd [72, 103, 45, 49] = .ok (.SetThread .Other .all) := by decide
-- "Hc00000000" (zero thread id)
example : parseCmd [72, 99, 48, 48, 48, 48, 48, 48, 48, 48] = .malformed := by decide
-- "Hx1" (bad action char)
example : parseCmd [72, 120, 49] = .malformed := by decide
-- "Hc01000000" (thread id 0x01000000, byte-swapped to 1)
example : parseCmd [72, 99, 48, 49, 48, 48, 48, 48, 48, 48] =
    .ok (.SetThread .ContStep (.thread 1)) := by decide
-- unknown command "q..."
example : parseCmd [113, 83] = .unsupported := by decide
-- "vCont;c"
example : parseCmd [118, 67, 111, 110, 116, 59, 99] = .unsupported := by decide

/-! ## Stub engine (`src/lib.rs`)

The user-supplied `StubCalls` trait is embedded as a record of oracle
functions over an abstract adapter state `σ` (each method takes `&mut self`,
so every call threads the state).  `read_registers` is fused with
`Registers::encode::<_, LittleEndian>`: the pair "snapshot the registers,
then encode them through the checksum-observing writer" is modelled as the
byte sequence the encoder emits, which is all the engine ever observes.
Note the trait has no `step` method and `handle_cmd` has no arm for
`Command::Step` or `Command::WriteRegisters` (the match in the source is not
exhaustive); see `HRes.missing` below. -/

/-- An adapter call performed by the engine during one dispatch, in order. -/
inductive TEvent
  | readMem (addr : Nat)
  | writeMem (addr byte : Nat)
  | contEv
  | killEv
  | readRegistersEv
deriving DecidableEq, Repr

/-- The `StubCalls` implementation: oracle functions over adapter state `σ`. -/
structure Adapter (σ : Type) where
  /-- `read_registers(&mut self)` followed by `Registers::encode`: the bytes
  the register encoder writes through the response body writer. -/
  read_registers : σ → σ × List Nat
  /-- `read_mem(&mut self, addr) -> Result<u8, ()>`; `none` is `Err(())`. -/
  read_mem : σ → Nat → σ × Option Nat
  /-- `write_mem(&mut self, addr, byte) -> Result<(), ()>`; `true` is `Ok`. -/
  write_mem : σ → Nat → Nat → σ × Bool
  /-- `cont(&mut self)`. -/
  cont : σ → σ
  /-- `kill(&mut self)` (default no-op in the trait). -/
  kill : σ → σ

/-- `ResponseWriter` (`src/lib.rs` lines 88-130): collects the bytes written
through it (all forwarded to the channel) and the running checksum.
`RW.new` has already emitted the `$` start byte. -/
structure RW where
  out : List Nat
  checksum : Nat
deriving DecidableEq, Repr

/-- `ResponseWriter::new`: write `$`, zero checksum. -/
def RW.new : RW := ⟨[36], 0⟩

/-- `ResponseWriter::write`: add to the checksum, forward the byte. -/
def RW.write (w : RW) (b : Nat) : RW := ⟨w.out ++ [b], wrappingAdd w.checksum b⟩

/-- `Comm::write_all` through a `ResponseWriter`. -/
def RW.write_all (w : RW) (bs : List Nat) : RW := bs.foldl RW.write w

/-- `Comm::write_hex` through a `ResponseWriter`: two lowercase digits. -/
def RW.write_hex (w : RW) (b : Nat) : RW :=
  (w.write (hexDigitChar (b / 16))).write (hexDigitChar (b % 16))

/-- `ResponseWriter::finish`: write `#` then the checksum as two hex digits. -/
def RW.finish (w : RW) : List Nat := w.out ++ 35 :: writeHexByte w.checksum

/-- `GdbStub::write_response` (`src/lib.rs` lines 306-316): write `$`, run the
emitter through a `ChecksumComm` (which forwards every byte and accumulates
the wrapping sum), then `#` and the checksum as two hex digits.  `body` is
the byte sequence the emitter writes. -/
def writeResponse (body : List Nat) : List Nat :=
  36 :: (body ++ 35 :: writeHexByte (chk body))

/-- How one `handle_cmd` call ended.  With an infallible channel the source
can only return `Ok(())` or `Err(Error::Killed)`; `missing` marks the
commands with no match arm in the source's non-exhaustive `match`
(`Command::Step` and `Command::WriteRegisters`). -/
inductive HRes
  | ok
  | killed
  | missing
deriving DecidableEq, Repr

/-- The observable result of one `handle_cmd` call: final adapter state and
thread selectors, the adapter calls made (in order), the bytes written to the
channel, and how the call returned. -/
structure HandleOut (σ : Type) where
  tgt : σ
  tcs : ThreadId
  tot : ThreadId
  trace : List TEvent
  out : List Nat
  res : HRes
deriving DecidableEq

/-- The `ReadMem` loop (`for addr in start..start+len`): read one byte per
address through the adapter, writing each as hex through the response writer;
the first `Err` breaks out and the truncated response is finished.  Returns
the final adapter state, writer, bytes successfully read (in address order)
and the adapter calls made. -/
def readMemLoop {σ : Type} (ad : Adapter σ) : σ → RW → Nat → Nat → σ × RW × List Nat × List TEvent
  | s, w, _, 0 => (s, w, [], [])
  | s, w, addr, n + 1 =>
    match ad.read_mem s addr with
    | (s', some b) =>
      let (s'', w', bs, tr) := readMemLoop ad s' (w.write_hex b) (addr + 1) n
      (s'', w', b :: bs, .readMem addr :: tr)
    | (s', none) => (s', w, [], [.readMem addr])

/-- The `WriteMem` loop (`(start..start+bytes.len()).zip(bytes)`): write the
bytes one by one; the first `Err` sets the error flag and breaks.  Returns
the final adapter state, the error flag and the adapter calls made. -/
def writeMemLoop {σ : Type} (ad : Adapter σ) : σ → Nat → List Nat → σ × Bool × List TEvent
  | s, _, [] => (s, false, [])
  | s, addr, b :: bs =>
    match ad.write_mem s addr b with
    | (s', true) =>
      let (s'', e, tr) := writeMemLoop ad s' (addr + 1) bs
      (s'', e, .writeMem addr b :: tr)
    | (s', false) => (s', true, [.writeMem addr b])

/-- `GdbStub::handle_cmd` (`src/lib.rs` lines 200-269).  `u64` range
arithmetic is explicit: `start..start+len` iterates
`(start + len) % 2^64 - start` addresses (the overflowing end wraps, so a
wrapped range is empty or truncated), and the `WriteMem` zip covers
`min` of that count and the byte count.  `Command::Step` and
`Command::WriteRegisters` have no arm in the source's match; they yield
`HRes.missing` with no adapter call and no output. -/
def handleCmd {σ : Type} (ad : Adapter σ) (s : σ) (tcs tot : ThreadId) :
    Command → HandleOut σ
  | .GetHaltReason => ⟨s, tcs, tot, [], writeResponse [83, 48, 48], .ok⟩
  | .ReadRegisters =>
    let (s', enc) := ad.read_registers s
    ⟨s', tcs, tot, [.readRegistersEv], writeResponse enc, .ok⟩
  | .Kill => ⟨ad.kill s, tcs, tot, [.killEv], [], .killed⟩
  | .SetThread a t =>
    let (tcs', tot') :=
      match a with
      | .ContStep => (t, tot)
      | .Other => (tcs, t)
    ⟨s, tcs', tot', [], (RW.new.write_all [79, 75]).finish, .ok⟩
  | .Continue =>
    ⟨ad.cont s, tcs, tot, [.contEv], (RW.new.write_all [83, 48, 53]).finish, .ok⟩
  | .ReadMem start len =>
    let cnt := (start + len) % 2 ^ 64 - start
    let (s', w, _, tr) := readMemLoop ad s RW.new start cnt
    ⟨s', tcs, tot, tr, w.finish, .ok⟩
  | .WriteMem start bytes =>
    let cnt := (start + bytes.length) % 2 ^ 64 - start
    let (s', e, tr) := writeMemLoop ad s start (bytes.take cnt)
    let body : List Nat := if e then [69, 48, 48] else [79, 75]
    ⟨s', tcs, tot, tr, (RW.new.write_all body).finish, .ok⟩
  | .WriteRegisters _ => ⟨s, tcs, tot, [], [], .missing⟩
  | .Step => ⟨s, tcs, tot, [], [], .missing⟩

/-- The possible errors returned by the library (`src/lib.rs` lines 334-368).
`CommError` payloads are not modelled. -/
inductive Error
  | CommError
  | Unexpected (byte : Nat) (expected : String)
  | Malformed
  | Checksum (received computed : Nat)
  | Nack
  | Killed
deriving DecidableEq, Repr

/-- The result of the closure in `poll` that parses and dispatches one packet
body (`src/lib.rs` lines 171-180): `Ok(cmd)` dispatches, `Unsupported` sends
an empty response, `Malformed` fails with `Error::Malformed`.  `DRes.stuck`
marks the executions on which the source has no defined behaviour (parser
index panic, or a command with no match arm). -/
inductive DRes
  | ok
  | err (e : Error)
  | stuck
deriving DecidableEq, Repr

/-- Dispatch outcome: adapter state, selectors, trace, output, result. -/
structure DispatchOut (σ : Type) where
  tgt : σ
  tcs : ThreadId
  tot : ThreadId
  trace : List TEvent
  out : List Nat
  res : DRes
deriving DecidableEq

/-- Map `handle_cmd`'s return into the closure's `Result<(), Error>`. -/
def HRes.toDRes : HRes → DRes
  | .ok => .ok
  | .killed => .err .Killed
  | .missing => .stuck

/-- The parse-and-dispatch closure of `poll` applied to one packet body. -/
def dispatchBody {σ : Type} (ad : Adapter σ) (s : σ) (tcs tot : ThreadId)
    (body : List Nat) : DispatchOut σ :=
  match parseCmd body with
  | .ok cmd =>
    let r := handleCmd ad s tcs tot cmd
    ⟨r.tgt, r.tcs, r.tot, r.trace, r.out, r.res.toDRes⟩
  | .unsupported => ⟨s, tcs, tot, [], writeResponse [], .ok⟩
  | .malformed => ⟨s, tcs, tot, [], [], .err .Malformed⟩
  | .oob => ⟨s, tcs, tot, [], [], .stuck⟩

/-- The engine state that persists across packets (`GdbStub` fields minus the
channel): adapter state, packet buffer, and the two thread selectors.
After a packet, `buf` holds that packet's body (`Command::parse` may also
overwrite a decoded prefix of it in place for `M`/`G`; the buffer is cleared
at the start of the next packet, so that prefix is never observed and is not
tracked). -/
structure PollSt (σ : Type) where
  tgt : σ
  buf : List Nat
  tcs : ThreadId
  tot : ThreadId
deriving DecidableEq

/-- How a `poll` run ends: `Ok(())`, `Err(e)`, undefined behaviour reached
(parser panic / missing match arm), or out of fuel (model artifact: the fuel
bounds the number of loop iterations, each of which consumes at least one
input byte). -/
inductive Outcome
  | ok
  | err (e : Error)
  | stuck
  | fuel
deriving DecidableEq, Repr

/-- The body-reading loop of `read_packet`: push bytes until `#`.  Returns
the body and the remaining input after `#`, or `none` if the input ends
first (the transport read fails). -/
def readBody : List Nat → Option (List Nat × List Nat)
  | [] => none
  | b :: rest =>
    if b = 35 then some ([], rest)
    else
      match readBody rest with
      | some (bd, r) => some (b :: bd, r)
      | none => none

/-- `GdbStub::poll` (`src/lib.rs` lines 162-195), with fuel bounding the loop.
Each iteration: read one byte; on `$` read the packet body and the declared
checksum, compare with the computed checksum, ACK with `+`, then parse and
dispatch; `Err(Error::Killed)` from dispatch returns `Ok(())`; any other
error propagates; on `+` loop; on `-` fail with `Nack`; otherwise fail with
`Unexpected`.  Returns the bytes written, the outcome, the final engine
state, and the adapter calls made. -/
def pollAux {σ : Type} (ad : Adapter σ) :
    Nat → List Nat → PollSt σ → List Nat × Outcome × PollSt σ × List TEvent
  | 0, _, st => ([], .fuel, st, [])
  | _ + 1, [], st => ([], .err .CommError, st, [])
  | n + 1, b :: input, st =>
    if b = 36 then
      match readBody input with
      | none => ([], .err .CommError, st, [])
      | some (body, rest1) =>
        match rest1 with
        | c1 :: c2 :: rest2 =>
          -- `u8::from_str_radix(checksum_str, 16)`; an invalid checksum
          -- string (bad digit or invalid UTF-8) is `Error::Unexpected` in
          -- the source, with the byte payload taken from the bad-digit
          -- branch.
          (match fromStrRadix16 8 [c1, c2] with
          | none => ([], .err (.Unexpected c1 "checksum (hex byte)"), st, [])
          | some received =>
            let computed := chk body
            if computed ≠ received then
              ([], .err (.Checksum received computed), { st with buf := body }, [])
            else
              let st1 : PollSt σ := { st with buf := body }
              let d := dispatchBody ad st1.tgt st1.tcs st1.tot body
              let st2 : PollSt σ := ⟨d.tgt, st1.buf, d.tcs, d.tot⟩
              match d.res with
              | .err .Killed => (43 :: d.out, .ok, st2, d.trace)
              | .err e => (43 :: d.out, .err e, st2, d.trace)
              | .stuck => (43 :: d.out, .stuck, st2, d.trace)
              | .ok =>
                let (o', oc, st3, tr') := pollAux ad n rest2 st2
                (43 :: d.out ++ o', oc, st3, d.trace ++ tr'))
        | _ => ([], .err .CommError, { st with buf := body }, [])
    else if b = 43 then
      pollAux ad n input st
    else if b = 45 then
      ([], .err .Nack, st, [])
    else
      ([], .err (.Unexpected b "start of packet ($) or ACK (+)"), st, [])

/-- `GdbStub::poll` on a finite input stream, with enough fuel that it can
only end by consuming the input (every iteration consumes at least one
byte). -/
def poll {σ : Type} (ad : Adapter σ) (input : List Nat) (st : PollSt σ) :
    List Nat × Outcome × PollSt σ × List TEvent :=
  pollAux ad (input.length + 1) input st

-- End-to-end sanity checks against the spec's scenarios:
-- a trivially-mapped target for concrete runs.
def nopAd : Adapter Unit :=
  ⟨fun s => (s, []), fun s _ => (s, some 144), fun s _ _ => (s, true),
   fun s => s, fun s => s⟩

def st0 : PollSt Unit := ⟨(), [], .all, .any⟩

-- Halt query: "$?#3f" then EOF. Stub sends "+" then "$S00#b3".
example :
    poll nopAd [36, 63, 35, 51, 102] st0 =
      ([43, 36, 83, 48, 48, 35, 98, 51], .err .CommError, ⟨(), [63], .all, .any⟩, []) := by
  decide

-- Read memory: "$m0,4#fd" over a target of 0x90 bytes → "+$90909090#a4".
example :
    (poll nopAd [36, 109, 48, 44, 52, 35, 102, 100] st0).1 =
      [43, 36, 57, 48, 57, 48, 57, 48, 57, 48, 35, 97, 52] := by decide

-- Write memory: "$M10,2:cccc#d2" → "+$OK#9a".
example :
    (poll nopAd [36, 77, 49, 48, 44, 50, 58, 99, 99, 99, 99, 35, 100, 50] st0).1 =
      [43, 36, 79, 75, 35, 57, 97] := by decide

-- Continue: "$c#63" → "+$S05#b8".
example :
    (poll nopAd [36, 99, 35, 54, 51] st0).1 = [43, 36, 83, 48, 53, 35, 98, 56] := by decide

-- Kill: "$k#6b" → "+", poll returns Ok, kill called once.
example :
    poll nopAd [36, 107, 35, 54, 98] st0 =
      ([43], .ok, ⟨(), [107], .all, .any⟩, [.killEv]) := by decide

-- Checksum mismatch: nothing written, Checksum error.
example :
    poll nopAd [36, 107, 35, 54, 99] st0 =
      ([], .err (.Checksum 108 107), ⟨(), [107], .all, .any⟩, []) := by decide

-- Unknown command: "+", "$#00", then continues (EOF → CommError).
example :
    poll nopAd [36, 113, 35, 55, 49] st0 =
      ([43, 36, 35, 48, 48], .err .CommError, ⟨(), [113], .all, .any⟩, []) := by decide

-- Stray ACK then NACK.
example : poll nopAd [43, 45] st0 = ([], .err .Nack, st0, []) := by decide

-- Unexpected top-level byte.
example :
    poll nopAd [120] st0 =
      ([], .err (.Unexpected 120 "start of packet ($) or ACK (+)"), st0, []) := by decide

/-! ## Target description layer (`src/targets.rs`)

`Register::encode` writes a fixed-size byte image through
`Comm::write_all_hex` (two lowercase hex digits per byte); `Register::decode`
reads the raw (already hex-decoded) bytes back from a reader.  The byteorder
crate's `ByteOrder` is either `LittleEndian` or `BigEndian`
(`NativeEndian` is an alias).  A reader is modelled as the remaining byte
stream; `decode` returns the value and the leftover stream, `none` when the
reader runs dry (`io::Error`). -/

inductive ByteOrderK
  | le
  | be
deriving DecidableEq, Repr

/-- The `n` little-endian bytes of `v` (least significant first). -/
def leBytes : Nat → Nat → List Nat
  | 0, _ => []
  | n + 1, v => v % 256 :: leBytes n (v / 256)

/-- `B::write_uN(&mut buf, v)`: the byte image of an `n`-byte unsigned
integer in byte order `bo`. -/
def writeUInt (bo : ByteOrderK) (n v : Nat) : List Nat :=
  match bo with
  | .le => leBytes n v
  | .be => (leBytes n v).reverse

/-- `Read::read_exact` on an `n`-byte buffer: take `n` bytes or fail. -/
def readExact (n : Nat) (s : List Nat) : Option (List Nat × List Nat) :=
  if n ≤ s.length then some (s.take n, s.drop n) else none

/-- Value of a little-endian byte list. -/
def valLE (bs : List Nat) : Nat := bs.foldr (fun b acc => b + 256 * acc) 0

/-- `reader.read_uN::<B>()`: read `n` bytes and assemble them in byte order
`bo`. -/
def readUInt (bo : ByteOrderK) (n : Nat) (s : List Nat) : Option (Nat × List Nat) :=
  match readExact n s with
  | some (bs, rest) =>
    some (match bo with
      | .le => valLE bs
      | .be => valLE bs.reverse, rest)
  | none => none

/-- `<uN as Register>::encode`: serialise in byte order `B`, emit as hex. -/
def encodeUInt (bo : ByteOrderK) (n v : Nat) : List Nat := writeAllHex (writeUInt bo n v)

/-- `<[u8; 10] as Register>::encode`: the ten bytes raw, as hex
(`FIXME swap endianness` in the source: no byte order is applied). -/
def encodeArr10 (a : List Nat) : List Nat := writeAllHex a

/-- `<[u8; 10] as Register>::decode`: `read_exact` into a ten-byte buffer. -/
def decodeArr10 (s : List Nat) : Option (List Nat × List Nat) := readExact 10 s

/-- `X86Registers` (`def_regs!` expansion in `src/targets.rs`): the register
record of a 32-bit x86 processor, fields in declaration order.  `u32`/`u128`
fields are `Nat` below their width; `st*` are raw ten-byte arrays. -/
structure X86Registers where
  eax : Nat
  ebx : Nat
  ecx : Nat
  edx : Nat
  esp : Nat
  ebp : Nat
  esi : Nat
  edi : Nat
  eip : Nat
  eflags : Nat
  cs : Nat
  ss : Nat
  ds : Nat
  es : Nat
  fs : Nat
  gs : Nat
  st0 : List Nat
  st1 : List Nat
  st2 : List Nat
  st3 : List Nat
  st4 : List Nat
  st5 : List Nat
  st6 : List Nat
  st7 : List Nat
  fctrl : Nat
  fstat : Nat
  ftag : Nat
  fiseg : Nat
  fioff : Nat
  foseg : Nat
  fooff : Nat
  fop : Nat
  xmm0 : Nat
  xmm1 : Nat
  xmm2 : Nat
  xmm3 : Nat
  xmm4 : Nat
  xmm5 : Nat
  xmm6 : Nat
  xmm7 : Nat
  mxcsr : Nat
deriving DecidableEq, Repr

/-- The raw (pre-hex) byte image of an `X86Registers` record: each field's
`Register` image, concatenated in declaration order. -/
def X86Registers.raw (bo : ByteOrderK) (r : X86Registers) : List Nat :=
  writeUInt bo 4 r.eax ++ writeUInt bo 4 r.ebx ++ writeUInt bo 4 r.ecx ++
  writeUInt bo 4 r.edx ++ writeUInt bo 4 r.esp ++ writeUInt bo 4 r.ebp ++
  writeUInt bo 4 r.esi ++ writeUInt bo 4 r.edi ++ writeUInt bo 4 r.eip ++
  writeUInt bo 4 r.eflags ++ writeUInt bo 4 r.cs ++ writeUInt bo 4 r.ss ++
  writeUInt bo 4 r.ds ++ writeUInt bo 4 r.es ++ writeUInt bo 4 r.fs ++
  writeUInt bo 4 r.gs ++
  r.st0 ++ r.st1 ++ r.st2 ++ r.st3 ++ r.st4 ++ r.st5 ++ r.st6 ++ r.st7 ++
  writeUInt bo 4 r.fctrl ++ writeUInt bo 4 r.fstat ++ writeUInt bo 4 r.ftag ++
  writeUInt bo 4 r.fiseg ++ writeUInt bo 4 r.fioff ++ writeUInt bo 4 r.foseg ++
  writeUInt bo 4 r.fooff ++ writeUInt bo 4 r.fop ++
  writeUInt bo 16 r.xmm0 ++ writeUInt bo 16 r.xmm1 ++ writeUInt bo 16 r.xmm2 ++
  writeUInt bo 16 r.xmm3 ++ writeUInt bo 16 r.xmm4 ++ writeUInt bo 16 r.xmm5 ++
  writeUInt bo 16 r.xmm6 ++ writeUInt bo 16 r.xmm7 ++
  writeUInt bo 4 r.mxcsr

/-- `<X86Registers as Register>::encode`: each field encoded (as hex) in
declaration order.  Per-field hex emission concatenates to the hex of the
concatenated raw image. -/
def X86Registers.encode (bo : ByteOrderK) (r : X86Registers) : List Nat :=
  encodeUInt bo 4 r.eax ++ encodeUInt bo 4 r.ebx ++ encodeUInt bo 4 r.ecx ++
  encodeUInt bo 4 r.edx ++ encodeUInt bo 4 r.esp ++ encodeUInt bo 4 r.ebp ++
  encodeUInt bo 4 r.esi ++ encodeUInt bo 4 r.edi ++ encodeUInt bo 4 r.eip ++
  encodeUInt bo 4 r.eflags ++ encodeUInt bo 4 r.cs ++ encodeUInt bo 4 r.ss ++
  encodeUInt bo 4 r.ds ++ encodeUInt bo 4 r.es ++ encodeUInt bo 4 r.fs ++
  encodeUInt bo 4 r.gs ++
  encodeArr10 r.st0 ++ encodeArr10 r.st1 ++ encodeArr10 r.st2 ++
  encodeArr10 r.st3 ++ encodeArr10 r.st4 ++ encodeArr10 r.st5 ++
  encodeArr10 r.st6 ++ encodeArr10 r.st7 ++
  encodeUInt bo 4 r.fctrl ++ encodeUInt bo 4 r.fstat ++ encodeUInt bo 4 r.ftag ++
  encodeUInt bo 4 r.fiseg ++ encodeUInt bo 4 r.fioff ++ encodeUInt bo 4 r.foseg ++
  encodeUInt bo 4 r.fooff ++ encodeUInt bo 4 r.fop ++
  encodeUInt bo 16 r.xmm0 ++ encodeUInt bo 16 r.xmm1 ++ encodeUInt bo 16 r.xmm2 ++
  encodeUInt bo 16 r.xmm3 ++ encodeUInt bo 16 r.xmm4 ++ encodeUInt bo 16 r.xmm5 ++
  encodeUInt bo 16 r.xmm6 ++ encodeUInt bo 16 r.xmm7 ++
  encodeUInt bo 4 r.mxcsr

/-- Eight consecutive `u32` reads (one register group). -/
def readU32x8 (bo : ByteOrderK) (s : List Nat) :
    Option ((Nat × Nat × Nat × Nat × Nat × Nat × Nat × Nat) × List Nat) :=
  (readUInt bo 4 s).bind fun p1 =>
  (readUInt bo 4 p1.2).bind fun p2 =>
  (readUInt bo 4 p2.2).bind fun p3 =>
  (readUInt bo 4 p3.2).bind fun p4 =>
  (readUInt bo 4 p4.2).bind fun p5 =>
  (readUInt bo 4 p5.2).bind fun p6 =>
  (readUInt bo 4 p6.2).bind fun p7 =>
  (readUInt bo 4 p7.2).bind fun p8 =>
  some ((p1.1, p2.1, p3.1, p4.1, p5.1, p6.1, p7.1, p8.1), p8.2)

/-- The eight ten-byte ST register reads. -/
def readSTx8 (s : List Nat) :
    Option ((List Nat × List Nat × List Nat × List Nat × List Nat × List Nat ×
      List Nat × List Nat) × List Nat) :=
  (readExact 10 s).bind fun p1 =>
  (readExact 10 p1.2).bind fun p2 =>
  (readExact 10 p2.2).bind fun p3 =>
  (readExact 10 p3.2).bind fun p4 =>
  (readExact 10 p4.2).bind fun p5 =>
  (readExact 10 p5.2).bind fun p6 =>
  (readExact 10 p6.2).bind fun p7 =>
  (readExact 10 p7.2).bind fun p8 =>
  some ((p1.1, p2.1, p3.1, p4.1, p5.1, p6.1, p7.1, p8.1), p8.2)

/-- The eight `u128` XMM register reads. -/
def readXMMx8 (bo : ByteOrderK) (s : List Nat) :
    Option ((Nat × Nat × Nat × Nat × Nat × Nat × Nat × Nat) × List Nat) :=
  (readUInt bo 16 s).bind fun p1 =>
  (readUInt bo 16 p1.2).bind fun p2 =>
  (readUInt bo 16 p2.2).bind fun p3 =>
  (readUInt bo 16 p3.2).bind fun p4 =>
  (readUInt bo 16 p4.2).bind fun p5 =>
  (readUInt bo 16 p5.2).bind fun p6 =>
  (readUInt bo 16 p6.2).bind fun p7 =>
  (readUInt bo 16 p7.2).bind fun p8 =>
  some ((p1.1, p2.1, p3.1, p4.1, p5.1, p6.1, p7.1, p8.1), p8.2)

/-- `<X86Registers as Register>::decode`: each field decoded from the reader
in declaration order (the 41 sequential reads are grouped eight at a time;
sequencing is associative, so the read order is exactly that of the
`def_regs!` expansion). -/
def X86Registers.decode (bo : ByteOrderK) (s : List Nat) :
    Option (X86Registers × List Nat) :=
  (readU32x8 bo s).bind fun g1 =>
  (readU32x8 bo g1.2).bind fun g2 =>
  (readSTx8 g2.2).bind fun g3 =>
  (readU32x8 bo g3.2).bind fun g4 =>
  (readXMMx8 bo g4.2).bind fun g5 =>
  (readUInt bo 4 g5.2).bind fun p6 =>
  match g1.1, g2.1, g3.1, g4.1, g5.1 with
  | (eax, ebx, ecx, edx, esp, ebp, esi, edi),
    (eip, eflags, cs, ss, ds, es, fs, gs),
    (st0, st1, st2, st3, st4, st5, st6, st7),
    (fctrl, fstat, ftag, fiseg, fioff, foseg, fooff, fop),
    (xmm0, xmm1, xmm2, xmm3, xmm4, xmm5, xmm6, xmm7) =>
    some (⟨eax, ebx, ecx, edx, esp, ebp, esi, edi, eip, eflags, cs, ss, ds, es,
      fs, gs, st0, st1, st2, st3, st4, st5, st6, st7, fctrl, fstat, ftag,
      fiseg, fioff, foseg, fooff, fop, xmm0, xmm1, xmm2, xmm3, xmm4, xmm5,
      xmm6, xmm7, p6.1⟩, p6.2)

/-- The well-formedness of an `X86Registers` value, guaranteed in the source
by the Rust types: `u32` fields below `2^32`, `u128` fields below `2^128`,
`[u8; 10]` fields of length 10 with byte entries. -/
def X86Registers.Valid (r : X86Registers) : Prop :=
  r.eax < 2 ^ 32 ∧ r.ebx < 2 ^ 32 ∧ r.ecx < 2 ^ 32 ∧ r.edx < 2 ^ 32 ∧
  r.esp < 2 ^ 32 ∧ r.ebp < 2 ^ 32 ∧ r.esi < 2 ^ 32 ∧ r.edi < 2 ^ 32 ∧
  r.eip < 2 ^ 32 ∧ r.eflags < 2 ^ 32 ∧ r.cs < 2 ^ 32 ∧ r.ss < 2 ^ 32 ∧
  r.ds < 2 ^ 32 ∧ r.es < 2 ^ 32 ∧ r.fs < 2 ^ 32 ∧ r.gs < 2 ^ 32 ∧
  (r.st0.length = 10 ∧ ∀ x ∈ r.st0, x < 256) ∧
  (r.st1.length = 10 ∧ ∀ x ∈ r.st1, x < 256) ∧
  (r.st2.length = 10 ∧ ∀ x ∈ r.st2, x < 256) ∧
  (r.st3.length = 10 ∧ ∀ x ∈ r.st3, x < 256) ∧
  (r.st4.length = 10 ∧ ∀ x ∈ r.st4, x < 256) ∧
  (r.st5.length = 10 ∧ ∀ x ∈ r.st5, x < 256) ∧
  (r.st6.length = 10 ∧ ∀ x ∈ r.st6, x < 256) ∧
  (r.st7.length = 10 ∧ ∀ x ∈ r.st7, x < 256) ∧
  r.fctrl < 2 ^ 32 ∧ r.fstat < 2 ^ 32 ∧ r.ftag < 2 ^ 32 ∧ r.fiseg < 2 ^ 32 ∧
  r.fioff < 2 ^ 32 ∧ r.foseg < 2 ^ 32 ∧ r.fooff < 2 ^ 32 ∧ r.fop < 2 ^ 32 ∧
  r.xmm0 < 2 ^ 128 ∧ r.xmm1 < 2 ^ 128 ∧ r.xmm2 < 2 ^ 128 ∧ r.xmm3 < 2 ^ 128 ∧
  r.xmm4 < 2 ^ 128 ∧ r.xmm5 < 2 ^ 128 ∧ r.xmm6 < 2 ^ 128 ∧ r.xmm7 < 2 ^ 128 ∧
  r.mxcsr < 2 ^ 32

example : readUInt .le 4 (writeUInt .le 4 305419896) = some (305419896, []) := by decide
example : readUInt .be 4 (writeUInt .be 4 305419896) = some (305419896, []) := by decide
example : writeUInt .le 4 305419896 = [120, 86, 52, 18] := by decide
example : writeUInt .be 4 305419896 = [18, 52, 86, 120] := by decide

/-! ## Checksum and framing lemmas -/

theorem foldl_wrappingAdd (l : List Nat) :
    ∀ a : Nat, a < 256 → l.foldl wrappingAdd a = (a + l.sum) % 256 := by
  induction l with
  | nil => intro a ha; simp [Nat.mod_eq_of_lt ha]
  | cons b t ih =>
    intro a ha
    have h1 : wrappingAdd a b < 256 := Nat.mod_lt _ (by omega)
    rw [List.foldl_cons, ih _ h1]
    simp [wrappingAdd, Nat.add_mod, List.sum_cons]
    omega

theorem chk_eq_sum (l : List Nat) : chk l = l.sum % 256 := by
  simpa using foldl_wrappingAdd l 0 (by omega)

theorem chk_lt (l : List Nat) : chk l < 256 := by
  rw [chk_eq_sum]; exact Nat.mod_lt _ (by omega)

/-- The response shape demanded by the specification: `$`, the body, `#`, and
two lowercase hex digits of `sum(body) mod 256`.  Stated from the spec's
words, to be compared with the framing code. -/
def specFrame (body : List Nat) : List Nat :=
  36 :: (body ++ 35 :: [hexDigitChar (body.sum % 256 / 16), hexDigitChar (body.sum % 256 % 16)])

theorem writeResponse_eq_specFrame (body : List Nat) :
    writeResponse body = specFrame body := by
  simp [writeResponse, specFrame, writeHexByte, chk_eq_sum]

theorem RW.write_all_spec (bs : List Nat) :
    ∀ w : RW, w.write_all bs = ⟨w.out ++ bs, bs.foldl wrappingAdd w.checksum⟩ := by
  induction bs with
  | nil => intro w; simp [RW.write_all]
  | cons b t ih =>
    intro w
    show (w.write b).write_all t = _
    rw [ih]
    simp [RW.write]

theorem RW.new_write_all_finish (bs : List Nat) :
    (RW.new.write_all bs).finish = specFrame bs := by
  rw [RW.write_all_spec]
  simp [RW.new, RW.finish, specFrame, writeHexByte]
  rw [show bs.foldl wrappingAdd 0 = chk bs from rfl, chk_eq_sum]
  exact ⟨rfl, rfl⟩

/-! ## Hex round-trip lemmas -/

theorem hexDigitChar_ge (d : Nat) : 48 ≤ hexDigitChar d := by
  unfold hexDigitChar; split <;> omega

theorem hexDigitVal_hexDigitChar (d : Nat) (h : d < 16) :
    hexDigitVal (hexDigitChar d) = some d := by
  interval_cases d <;> rfl

/-- Decoding the two hex digits of a byte gives the byte back. -/
theorem fromStrRadix16_writeHexByte (b : Nat) (hb : b < 256) :
    fromStrRadix16 8 (writeHexByte b) = some b := by
  have h1 : b / 16 < 16 := by omega
  have h2 : b % 16 < 16 := by omega
  have hne : hexDigitChar (b / 16) ≠ 43 := by
    have := hexDigitChar_ge (b / 16); omega
  unfold fromStrRadix16 writeHexByte
  simp only [if_neg hne, List.isEmpty_cons, Bool.false_eq_true, if_false,
    parseHexVal, hexDigitVal_hexDigitChar _ h1, hexDigitVal_hexDigitChar _ h2]
  have : 16 * (16 * 0 + b / 16) + b % 16 = b := by omega
  rw [this]
  simp [hb]

theorem writeAllHex_nil : writeAllHex [] = [] := rfl

theorem writeAllHex_cons (x : Nat) (t : List Nat) :
    writeAllHex (x :: t) = writeHexByte x ++ writeAllHex t := by
  simp [writeAllHex]

theorem writeAllHex_append (a b : List Nat) :
    writeAllHex (a ++ b) = writeAllHex a ++ writeAllHex b := by
  simp [writeAllHex]

theorem writeAllHex_length (l : List Nat) : (writeAllHex l).length = 2 * l.length := by
  induction l with
  | nil => rfl
  | cons x t ih => simp [writeAllHex_cons, writeHexByte, ih]; omega

theorem writeAllHex_drop (l : List Nat) :
    ∀ i, (writeAllHex l).drop (2 * i) = writeAllHex (l.drop i) := by
  induction l with
  | nil => simp [writeAllHex]
  | cons x t ih =>
    intro i
    cases i with
    | zero => simp
    | succ j =>
      rw [writeAllHex_cons]
      have h2 : 2 * (j + 1) = (writeHexByte x).length + 2 * j := by
        simp [writeHexByte]; omega
      rw [h2, show (writeHexByte x).length + 2 * j = (writeHexByte x).length + 2 * j from rfl]
      rw [← List.drop_drop, List.drop_left]
      simp [ih j]

/-- Invariant of the `hex_decode_in_place` loop on an encoder-produced
buffer: after `i` iterations the buffer is the `i` decoded bytes followed by
the untouched tail of the hex characters (the write at index `j` never
touches the characters `2j` and `2j+1` read at or after iteration `j`,
because `j < 2j + 2`). -/
theorem hexDecodeIter_writeAllHex (b0 : List Nat) (hb : ∀ x ∈ b0, x < 256) :
    ∀ (t : List Nat) (i : Nat), i + t.length = b0.length → b0.drop i = t →
    hexDecodeIter t.length (b0.take i ++ (writeAllHex b0).drop i) i =
      some (b0 ++ (writeAllHex b0).drop b0.length) := by
  intro t
  induction t with
  | nil =>
    intro i hlen _
    simp only [List.length_nil, Nat.add_zero] at hlen
    simp only [List.length_nil, hexDecodeIter]
    rw [hlen, List.take_length]
  | cons x t' ih =>
    intro i hlen hdrop
    have hi : i < b0.length := by simp at hlen; omega
    have hx : x ∈ b0 := List.mem_of_mem_drop (n := i) (by rw [hdrop]; exact List.mem_cons_self x t')
    have htake : (b0.take i).length = i := List.length_take_of_le (by omega)
    -- the two characters read at this iteration
    have hread : ((b0.take i ++ (writeAllHex b0).drop i).drop (2 * i)).take 2 =
        writeHexByte x := by
      have : (b0.take i ++ (writeAllHex b0).drop i).drop (2 * i) =
          (writeAllHex b0).drop (2 * i) := by
        rw [show 2 * i = i + i by omega, ← List.drop_drop, List.drop_left' htake,
          List.drop_drop, show i + i = 2 * i by omega]
      rw [this, writeAllHex_drop, hdrop, writeAllHex_cons]
      exact List.take_left' rfl
    have hwrite : (b0.take i ++ (writeAllHex b0).drop i).set i x =
        b0.take (i + 1) ++ (writeAllHex b0).drop (i + 1) := by
      rw [List.set_append_right _ _ (by omega), htake, Nat.sub_self]
      have hlt : i < (writeAllHex b0).length := by rw [writeAllHex_length]; omega
      rw [List.drop_eq_getElem_cons hlt, List.set_cons_zero]
      have hx0 : b0[i]? = some x := by
        rw [List.getElem?_eq_getElem hi]
        have := List.drop_eq_getElem_cons (l := b0) hi
        rw [hdrop] at this
        exact congrArg some (List.cons.inj this).1.symm
      have : b0.take (i + 1) = b0.take i ++ [x] := by
        rw [List.take_succ, hx0]
        rfl
      rw [this, List.append_assoc]
      rfl
    show hexDecodeIter (t'.length + 1) _ i = _
    unfold hexDecodeIter hexDecodeStep
    rw [hread, fromStrRadix16_writeHexByte x (hb x hx)]
    show hexDecodeIter t'.length ((List.take i b0 ++ List.drop i (writeAllHex b0)).set i x)
      (i + 1) = some (b0 ++ List.drop b0.length (writeAllHex b0))
    rw [hwrite]
    exact ih (i + 1) (by simp at hlen ⊢; omega)
      (by rw [← List.drop_drop, hdrop]; rfl)

/-- Round trip: in-place hex decoding inverts the hex encoder of the byte
channel on any byte sequence. -/
theorem hexDecode_writeAllHex (b : List Nat) (hb : ∀ x ∈ b, x < 256) :
    hex_decode_in_place (writeAllHex b) = some b := by
  unfold hex_decode_in_place
  have hlen : (writeAllHex b).length = 2 * b.length := writeAllHex_length b
  have h2 : (writeAllHex b).length / 2 = b.length := by omega
  rw [h2]
  have hiter := hexDecodeIter_writeAllHex b hb b 0 (by simp) (by simp)
  simp only [List.take_zero, List.drop_zero, List.nil_append] at hiter
  rw [hiter]
  have hfin : List.take b.length (b ++ List.drop b.length (writeAllHex b)) = b :=
    List.take_left' rfl
  simp [hfin]

/-! ## Packet reading and dispatch lemmas -/

theorem readBody_append (body r : List Nat) (h : 35 ∉ body) :
    readBody (body ++ 35 :: r) = some (body, r) := by
  induction body with
  | nil => simp [readBody]
  | cons b t ih =>
    have hb : b ≠ 35 := by intro e; exact h (e ▸ List.mem_cons_self b t)
    have ht : 35 ∉ t := fun m => h (List.mem_cons_of_mem _ m)
    simp [readBody, hb, ih ht]

theorem RW.write_all_append (w : RW) (a b : List Nat) :
    w.write_all (a ++ b) = (w.write_all a).write_all b := by
  simp [RW.write_all]

theorem RW.write_hex_eq (w : RW) (b : Nat) :
    w.write_hex b = w.write_all (writeHexByte b) := rfl

/-- The `ReadMem` loop writes exactly the hex encoding of the bytes it read,
through the response writer, in read order. -/
theorem readMemLoop_writer {σ : Type} (ad : Adapter σ) :
    ∀ (n : Nat) (s : σ) (w : RW) (addr : Nat),
    (readMemLoop ad s w addr n).2.1 =
      w.write_all (writeAllHex (readMemLoop ad s w addr n).2.2.1) := by
  intro n
  induction n with
  | zero => intro s w addr; simp [readMemLoop, RW.write_all, writeAllHex]
  | succ m ih =>
    intro s w addr
    show (readMemLoop ad s w addr (m + 1)).2.1 = _
    unfold readMemLoop
    cases hr : ad.read_mem s addr with
    | mk s' ob =>
      cases ob with
      | some b =>
        simp only []
        rw [ih s' (w.write_hex b) (addr + 1)]
        rw [writeAllHex_cons, RW.write_all_append, RW.write_hex_eq]
      | none => simp [RW.write_all, writeAllHex]

/-- When every address in the window is readable (whatever the adapter state),
the `ReadMem` loop reads all `n` bytes. -/
theorem readMemLoop_len_all {σ : Type} (ad : Adapter σ) :
    ∀ (n : Nat) (s : σ) (w : RW) (addr : Nat),
    (∀ (s' : σ) (a : Nat), addr ≤ a → a < addr + n → ((ad.read_mem s' a).2).isSome) →
    (readMemLoop ad s w addr n).2.2.1.length = n := by
  intro n
  induction n with
  | zero => intro s w addr _; simp [readMemLoop]
  | succ m ih =>
    intro s w addr hall
    unfold readMemLoop
    cases hr : ad.read_mem s addr with
    | mk s' ob =>
      cases ob with
      | some b =>
        simp only [List.length_cons]
        rw [ih s' (w.write_hex b) (addr + 1)
          (fun s'' a ha1 ha2 => hall s'' a (by omega) (by omega))]
      | none =>
        exfalso
        have := hall s addr (le_refl _) (by omega)
        rw [hr] at this
        simp at this

/-- When the first unreadable address is `addr + k`, the `ReadMem` loop stops
after reading exactly `k` bytes. -/
theorem readMemLoop_len_partial {σ : Type} (ad : Adapter σ) :
    ∀ (n k : Nat) (s : σ) (w : RW) (addr : Nat), k < n →
    (∀ (s' : σ) (a : Nat), addr ≤ a → a < addr + k → ((ad.read_mem s' a).2).isSome) →
    (∀ s' : σ, (ad.read_mem s' (addr + k)).2 = none) →
    (readMemLoop ad s w addr n).2.2.1.length = k := by
  intro n
  induction n with
  | zero => intro k s w addr hk; omega
  | succ m ih =>
    intro k s w addr hk hok hfail
    unfold readMemLoop
    cases hr : ad.read_mem s addr with
    | mk s' ob =>
      cases k with
      | zero =>
        have := hfail s
        rw [show addr + 0 = addr by omega, hr] at this
        simp only [] at this
        subst this
        simp
      | succ k' =>
        cases ob with
        | some b =>
          simp only [List.length_cons]
          rw [ih k' s' (w.write_hex b) (addr + 1) (by omega)
            (fun s'' a ha1 ha2 => hok s'' a (by omega) (by omega))
            (fun s'' => by rw [show addr + 1 + k' = addr + (k' + 1) by omega]; exact hfail s'')]
        | none =>
          exfalso
          have := hok s addr (le_refl _) (by omega)
          rw [hr] at this
          simp at this

/-- Bytes returned by `read_mem` are `u8` values: if the adapter's results
are below 256, so is everything the loop collects. -/
theorem readMemLoop_bytes_lt {σ : Type} (ad : Adapter σ)
    (hb : ∀ (s' : σ) (a b : Nat), (ad.read_mem s' a).2 = some b → b < 256) :
    ∀ (n : Nat) (s : σ) (w : RW) (addr : Nat),
    ∀ x ∈ (readMemLoop ad s w addr n).2.2.1, x < 256 := by
  intro n
  induction n with
  | zero => intro s w addr x hx; simp [readMemLoop] at hx
  | succ m ih =>
    intro s w addr x hx
    unfold readMemLoop at hx
    cases hr : ad.read_mem s addr with
    | mk s' ob =>
      rw [hr] at hx
      cases ob with
      | some b =>
        simp only [List.mem_cons] at hx
        rcases hx with rfl | hx
        · exact hb s addr x (by rw [hr])
        · exact ih s' (w.write_hex b) (addr + 1) x hx
      | none => simp at hx

/-- The sequence of write attempts demanded by the specification: one write
per byte, at consecutive addresses.  Stated from the spec's words, to be
compared with the trace the engine produces. -/
def writeTrace (addr : Nat) : List Nat → List TEvent
  | [] => []
  | b :: t => .writeMem addr b :: writeTrace (addr + 1) t

/-- When every write in the window succeeds (whatever the adapter state), the
`WriteMem` loop performs one write per byte at consecutive addresses and
reports no error. -/
theorem writeMemLoop_all {σ : Type} (ad : Adapter σ) :
    ∀ (bs : List Nat) (s : σ) (addr : Nat),
    (∀ (s' : σ) (i : Nat) (h : i < bs.length),
      (ad.write_mem s' (addr + i) (bs.get ⟨i, h⟩)).2 = true) →
    (writeMemLoop ad s addr bs).2.1 = false ∧
      (writeMemLoop ad s addr bs).2.2 = writeTrace addr bs := by
  intro bs
  induction bs with
  | nil => intro s addr _; simp [writeMemLoop, writeTrace]
  | cons b t ih =>
    intro s addr hall
    unfold writeMemLoop
    cases hw : ad.write_mem s addr b with
    | mk s' ok =>
      have h0 := hall s 0 (by simp)
      rw [show addr + 0 = addr by omega] at h0
      simp only [List.get] at h0
      rw [hw] at h0
      simp only [] at h0
      subst h0
      simp only []
      have := ih s' (addr + 1)
        (fun s'' i h => by
          have := hall s'' (i + 1) (by simpa using Nat.succ_lt_succ h)
          rw [show addr + (i + 1) = addr + 1 + i by omega] at this
          simpa using this)
      simp [writeTrace, this.1, this.2]

/-- When the first failing write is at offset `j`, the `WriteMem` loop stops
there: it attempts exactly the first `j + 1` writes and reports the error. -/
theorem writeMemLoop_partial {σ : Type} (ad : Adapter σ) :
    ∀ (bs : List Nat) (j : Nat) (s : σ) (addr : Nat) (hj : j < bs.length),
    (∀ (s' : σ) (i : Nat) (h : i < bs.length), i < j →
      (ad.write_mem s' (addr + i) (bs.get ⟨i, h⟩)).2 = true) →
    (∀ s' : σ, (ad.write_mem s' (addr + j) (bs.get ⟨j, hj⟩)).2 = false) →
    (writeMemLoop ad s addr bs).2.1 = true ∧
      (writeMemLoop ad s addr bs).2.2 = writeTrace addr (bs.take (j + 1)) := by
  intro bs
  induction bs with
  | nil => intro j s addr hj; simp at hj
  | cons b t ih =>
    intro j s addr hj hok hfail
    unfold writeMemLoop
    cases hw : ad.write_mem s addr b with
    | mk s' ok =>
      cases j with
      | zero =>
        have := hfail s
        rw [show addr + 0 = addr by omega] at this
        simp only [List.get] at this
        rw [hw] at this
        simp only [] at this
        subst this
        simp [writeTrace]
      | succ j' =>
        have h0 := hok s 0 (by simp) (by omega)
        rw [show addr + 0 = addr by omega] at h0
        simp only [List.get] at h0
        rw [hw] at h0
        simp only [] at h0
        subst h0
        simp only []
        have hrec := ih j' s' (addr + 1) (by simpa using Nat.lt_of_succ_lt_succ hj)
          (fun s'' i h hi => by
            have := hok s'' (i + 1) (by simpa using Nat.succ_lt_succ h) (by omega)
            rw [show addr + (i + 1) = addr + 1 + i by omega] at this
            simpa using this)
          (fun s'' => by
            have := hfail s''
            rw [show addr + (j' + 1) = addr + 1 + j' by omega] at this
            simpa using this)
        simp [writeTrace, hrec.1, hrec.2]

/-! ## Register codec lemmas -/

theorem leBytes_length (n : Nat) : ∀ v, (leBytes n v).length = n := by
  induction n with
  | zero => intro v; rfl
  | succ m ih => intro v; simp [leBytes, ih]

theorem leBytes_lt (n : Nat) : ∀ v, ∀ x ∈ leBytes n v, x < 256 := by
  induction n with
  | zero => intro v x hx; simp [leBytes] at hx
  | succ m ih =>
    intro v x hx
    simp only [leBytes, List.mem_cons] at hx
    rcases hx with rfl | hx
    · exact Nat.mod_lt _ (by omega)
    · exact ih (v / 256) x hx

theorem valLE_leBytes (n : Nat) : ∀ v, v < 256 ^ n → valLE (leBytes n v) = v := by
  induction n with
  | zero => intro v hv; interval_cases v; rfl
  | succ m ih =>
    intro v hv
    have hv' : v / 256 < 256 ^ m := by
      rw [Nat.div_lt_iff_lt_mul (by omega)]
      calc v < 256 ^ (m + 1) := hv
        _ = 256 ^ m * 256 := by rw [pow_succ]
    simp only [leBytes, valLE, List.foldr_cons]
    rw [show (leBytes m (v / 256)).foldr (fun b acc => b + 256 * acc) 0 =
      valLE (leBytes m (v / 256)) from rfl, ih _ hv']
    omega

theorem writeUInt_length (bo : ByteOrderK) (n v : Nat) : (writeUInt bo n v).length = n := by
  cases bo <;> simp [writeUInt, leBytes_length]

theorem writeUInt_lt (bo : ByteOrderK) (n v : Nat) : ∀ x ∈ writeUInt bo n v, x < 256 := by
  cases bo <;> simp [writeUInt] <;> exact fun x hx => leBytes_lt n v x hx

theorem pow_8_mul (n : Nat) : (2 : Nat) ^ (8 * n) = 256 ^ n := by
  rw [pow_mul]
  norm_num

theorem readExact_append (n : Nat) (a rest : List Nat) (h : a.length = n) :
    readExact n (a ++ rest) = some (a, rest) := by
  unfold readExact
  rw [if_pos (by simp [h])]
  rw [List.take_left' h, List.drop_left' h]

/-- Reading back an `n`-byte integer image consumes exactly its bytes and
returns the value, for either byte order. -/
theorem readUInt_writeUInt (bo : ByteOrderK) (n v : Nat) (rest : List Nat)
    (h : v < 2 ^ (8 * n)) :
    readUInt bo n (writeUInt bo n v ++ rest) = some (v, rest) := by
  rw [pow_8_mul] at h
  unfold readUInt
  rw [readExact_append n _ rest (writeUInt_length bo n v)]
  cases bo with
  | le => simp [writeUInt, valLE_leBytes n v h]
  | be => simp [writeUInt, valLE_leBytes n v h]

theorem readU32x8_spec (bo : ByteOrderK) (v1 v2 v3 v4 v5 v6 v7 v8 : Nat)
    (rest : List Nat) (h1 : v1 < 2 ^ 32) (h2 : v2 < 2 ^ 32) (h3 : v3 < 2 ^ 32)
    (h4 : v4 < 2 ^ 32) (h5 : v5 < 2 ^ 32) (h6 : v6 < 2 ^ 32) (h7 : v7 < 2 ^ 32)
    (h8 : v8 < 2 ^ 32) :
    readU32x8 bo (writeUInt bo 4 v1 ++ (writeUInt bo 4 v2 ++ (writeUInt bo 4 v3 ++
      (writeUInt bo 4 v4 ++ (writeUInt bo 4 v5 ++ (writeUInt bo 4 v6 ++
      (writeUInt bo 4 v7 ++ (writeUInt bo 4 v8 ++ rest)))))))) =
      some ((v1, v2, v3, v4, v5, v6, v7, v8), rest) := by
  unfold readU32x8
  rw [readUInt_writeUInt bo 4 v1 _ (by norm_num at h1 ⊢; omega)]
  simp only [Option.some_bind]
  rw [readUInt_writeUInt bo 4 v2 _ (by norm_num at h2 ⊢; omega)]
  simp only [Option.some_bind]
  rw [readUInt_writeUInt bo 4 v3 _ (by norm_num at h3 ⊢; omega)]
  simp only [Option.some_bind]
  rw [readUInt_writeUInt bo 4 v4 _ (by norm_num at h4 ⊢; omega)]
  simp only [Option.some_bind]
  rw [readUInt_writeUInt bo 4 v5 _ (by norm_num at h5 ⊢; omega)]
  simp only [Option.some_bind]
  rw [readUInt_writeUInt bo 4 v6 _ (by norm_num at h6 ⊢; omega)]
  simp only [Option.some_bind]
  rw [readUInt_writeUInt bo 4 v7 _ (by norm_num at h7 ⊢; omega)]
  simp only [Option.some_bind]
  rw [readUInt_writeUInt bo 4 v8 _ (by norm_num at h8 ⊢; omega)]
  rfl

theorem readSTx8_spec (a1 a2 a3 a4 a5 a6 a7 a8 rest : List Nat)
    (h1 : a1.length = 10) (h2 : a2.length = 10) (h3 : a3.length = 10)
    (h4 : a4.length = 10) (h5 : a5.length = 10) (h6 : a6.length = 10)
    (h7 : a7.length = 10) (h8 : a8.length = 10) :
    readSTx8 (a1 ++ (a2 ++ (a3 ++ (a4 ++ (a5 ++ (a6 ++ (a7 ++ (a8 ++ rest)))))))) =
      some ((a1, a2, a3, a4, a5, a6, a7, a8), rest) := by
  unfold readSTx8
  rw [readExact_append 10 a1 _ h1]
  simp only [Option.some_bind]
  rw [readExact_append 10 a2 _ h2]
  simp only [Option.some_bind]
  rw [readExact_append 10 a3 _ h3]
  simp only [Option.some_bind]
  rw [readExact_append 10 a4 _ h4]
  simp only [Option.some_bind]
  rw [readExact_append 10 a5 _ h5]
  simp only [Option.some_bind]
  rw [readExact_append 10 a6 _ h6]
  simp only [Option.some_bind]
  rw [readExact_append 10 a7 _ h7]
  simp only [Option.some_bind]
  rw [readExact_append 10 a8 _ h8]
  rfl

theorem readXMMx8_spec (bo : ByteOrderK) (v1 v2 v3 v4 v5 v6 v7 v8 : Nat)
    (rest : List Nat) (h1 : v1 < 2 ^ 128) (h2 : v2 < 2 ^ 128) (h3 : v3 < 2 ^ 128)
    (h4 : v4 < 2 ^ 128) (h5 : v5 < 2 ^ 128) (h6 : v6 < 2 ^ 128) (h7 : v7 < 2 ^ 128)
    (h8 : v8 < 2 ^ 128) :
    readXMMx8 bo (writeUInt bo 16 v1 ++ (writeUInt bo 16 v2 ++ (writeUInt bo 16 v3 ++
      (writeUInt bo 16 v4 ++ (writeUInt bo 16 v5 ++ (writeUInt bo 16 v6 ++
      (writeUInt bo 16 v7 ++ (writeUInt bo 16 v8 ++ rest)))))))) =
      some ((v1, v2, v3, v4, v5, v6, v7, v8), rest) := by
  unfold readXMMx8
  rw [readUInt_writeUInt bo 16 v1 _ (by norm_num at h1 ⊢; omega)]
  simp only [Option.some_bind]
  rw [readUInt_writeUInt bo 16 v2 _ (by norm_num at h2 ⊢; omega)]
  simp only [Option.some_bind]
  rw [readUInt_writeUInt bo 16 v3 _ (by norm_num at h3 ⊢; omega)]
  simp only [Option.some_bind]
  rw [readUInt_writeUInt bo 16 v4 _ (by norm_num at h4 ⊢; omega)]
  simp only [Option.some_bind]
  rw [readUInt_writeUInt bo 16 v5 _ (by norm_num at h5 ⊢; omega)]
  simp only [Option.some_bind]
  rw [readUInt_writeUInt bo 16 v6 _ (by norm_num at h6 ⊢; omega)]
  simp only [Option.some_bind]
  rw [readUInt_writeUInt bo 16 v7 _ (by norm_num at h7 ⊢; omega)]
  simp only [Option.some_bind]
  rw [readUInt_writeUInt bo 16 v8 _ (by norm_num at h8 ⊢; omega)]
  rfl

/-- Decoding the raw image of a register record (with any trailing stream)
recovers the record and leaves the trailer. -/
theorem X86Registers.decode_raw (bo : ByteOrderK) (r : X86Registers)
    (hr : r.Valid) (rest : List Nat) :
    X86Registers.decode bo (X86Registers.raw bo r ++ rest) = some (r, rest) := by
  obtain ⟨b1, b2, b3, b4, b5, b6, b7, b8, b9, b10, b11, b12, b13, b14, b15, b16,
    s1, s2, s3, s4, s5, s6, s7, s8, f1, f2, f3, f4, f5, f6, f7, f8,
    x1, x2, x3, x4, x5, x6, x7, x8, bm⟩ := hr
  unfold X86Registers.decode X86Registers.raw
  simp only [List.append_assoc]
  rw [readU32x8_spec bo _ _ _ _ _ _ _ _ _ b1 b2 b3 b4 b5 b6 b7 b8]
  simp only [Option.some_bind]
  rw [readU32x8_spec bo _ _ _ _ _ _ _ _ _ b9 b10 b11 b12 b13 b14 b15 b16]
  simp only [Option.some_bind]
  rw [readSTx8_spec _ _ _ _ _ _ _ _ _ s1.1 s2.1 s3.1 s4.1 s5.1 s6.1 s7.1 s8.1]
  simp only [Option.some_bind]
  rw [readU32x8_spec bo _ _ _ _ _ _ _ _ _ f1 f2 f3 f4 f5 f6 f7 f8]
  simp only [Option.some_bind]
  rw [readXMMx8_spec bo _ _ _ _ _ _ _ _ _ x1 x2 x3 x4 x5 x6 x7 x8]
  simp only [Option.some_bind]
  rw [readUInt_writeUInt bo 4 r.mxcsr rest (by norm_num at bm ⊢; omega)]
  rfl

/-! ## `handle_cmd` arm characterisations -/

theorem handleCmd_readMem_eq {σ : Type} (ad : Adapter σ) (s : σ) (tcs tot : ThreadId)
    (start len : Nat) :
    handleCmd ad s tcs tot (.ReadMem start len) =
      ⟨(readMemLoop ad s RW.new start ((start + len) % 2 ^ 64 - start)).1, tcs, tot,
        (readMemLoop ad s RW.new start ((start + len) % 2 ^ 64 - start)).2.2.2,
        specFrame (writeAllHex
          ((readMemLoop ad s RW.new start ((start + len) % 2 ^ 64 - start)).2.2.1)),
        .ok⟩ := by
  simp only [handleCmd]
  have hw := readMemLoop_writer ad ((start + len) % 2 ^ 64 - start) s RW.new start
  cases hL : readMemLoop ad s RW.new start ((start + len) % 2 ^ 64 - start) with
  | mk s' p =>
    cases p with
    | mk w q =>
      cases q with
      | mk bs tr =>
        rw [hL] at hw
        simp only [] at hw
        simp only []
        rw [hw, RW.new_write_all_finish]

theorem handleCmd_writeMem_eq {σ : Type} (ad : Adapter σ) (s : σ) (tcs tot : ThreadId)
    (start : Nat) (bytes : List Nat) :
    handleCmd ad s tcs tot (.WriteMem start bytes) =
      ⟨(writeMemLoop ad s start
          (bytes.take ((start + bytes.length) % 2 ^ 64 - start))).1, tcs, tot,
        (writeMemLoop ad s start
          (bytes.take ((start + bytes.length) % 2 ^ 64 - start))).2.2,
        specFrame (if (writeMemLoop ad s start
            (bytes.take ((start + bytes.length) % 2 ^ 64 - start))).2.1
          then [69, 48, 48] else [79, 75]),
        .ok⟩ := by
  simp only [handleCmd]
  cases hW : writeMemLoop ad s start (bytes.take ((start + bytes.length) % 2 ^ 64 - start)) with
  | mk s' p =>
    cases p with
    | mk e tr =>
      simp only []
      rw [RW.new_write_all_finish]

theorem handleCmd_setThread_eq {σ : Type} (ad : Adapter σ) (s : σ) (tcs tot : ThreadId)
    (a : ThreadAction) (t : ThreadId) :
    handleCmd ad s tcs tot (.SetThread a t) =
      ⟨s, (match a with | .ContStep => t | .Other => tcs),
        (match a with | .ContStep => tot | .Other => t), [],
        specFrame [79, 75], .ok⟩ := by
  cases a <;> simp only [handleCmd] <;> rw [RW.new_write_all_finish]

/-- One `poll` iteration on a `$`-framed packet with a syntactically valid
declared checksum: mismatch fails with `Checksum` before anything is written;
match ACKs and dispatches. -/
theorem pollAux_packet {σ : Type} (ad : Adapter σ) (n : Nat) (st : PollSt σ)
    (body : List Nat) (c1 c2 : Nat) (rest : List Nat) (received : Nat)
    (hbody : 35 ∉ body) (hpar : fromStrRadix16 8 [c1, c2] = some received) :
    pollAux ad (n + 1) (36 :: (body ++ 35 :: c1 :: c2 :: rest)) st =
      if chk body ≠ received then
        ([], .err (.Checksum received (chk body)), { st with buf := body }, [])
      else
        (match (dispatchBody ad st.tgt st.tcs st.tot body).res with
        | .err .Killed => (43 :: (dispatchBody ad st.tgt st.tcs st.tot body).out, .ok,
            ⟨(dispatchBody ad st.tgt st.tcs st.tot body).tgt, body,
              (dispatchBody ad st.tgt st.tcs st.tot body).tcs,
              (dispatchBody ad st.tgt st.tcs st.tot body).tot⟩,
            (dispatchBody ad st.tgt st.tcs st.tot body).trace)
        | .err e => (43 :: (dispatchBody ad st.tgt st.tcs st.tot body).out, .err e,
            ⟨(dispatchBody ad st.tgt st.tcs st.tot body).tgt, body,
              (dispatchBody ad st.tgt st.tcs st.tot body).tcs,
              (dispatchBody ad st.tgt st.tcs st.tot body).tot⟩,
            (dispatchBody ad st.tgt st.tcs st.tot body).trace)
        | .stuck => (43 :: (dispatchBody ad st.tgt st.tcs st.tot body).out, .stuck,
            ⟨(dispatchBody ad st.tgt st.tcs st.tot body).tgt, body,
              (dispatchBody ad st.tgt st.tcs st.tot body).tcs,
              (dispatchBody ad st.tgt st.tcs st.tot body).tot⟩,
            (dispatchBody ad st.tgt st.tcs st.tot body).trace)
        | .ok =>
          (43 :: (dispatchBody ad st.tgt st.tcs st.tot body).out ++
              (pollAux ad n rest ⟨(dispatchBody ad st.tgt st.tcs st.tot body).tgt, body,
                (dispatchBody ad st.tgt st.tcs st.tot body).tcs,
                (dispatchBody ad st.tgt st.tcs st.tot body).tot⟩).1,
            (pollAux ad n rest ⟨(dispatchBody ad st.tgt st.tcs st.tot body).tgt, body,
              (dispatchBody ad st.tgt st.tcs st.tot body).tcs,
              (dispatchBody ad st.tgt st.tcs st.tot body).tot⟩).2.1,
            (pollAux ad n rest ⟨(dispatchBody ad st.tgt st.tcs st.tot body).tgt, body,
              (dispatchBody ad st.tgt st.tcs st.tot body).tcs,
              (dispatchBody ad st.tgt st.tcs st.tot body).tot⟩).2.2.1,
            (dispatchBody ad st.tgt st.tcs st.tot body).trace ++
              (pollAux ad n rest ⟨(dispatchBody ad st.tgt st.tcs st.tot body).tgt, body,
                (dispatchBody ad st.tgt st.tcs st.tot body).tcs,
                (dispatchBody ad st.tgt st.tcs st.tot body).tot⟩).2.2.2)) := by
  simp only [pollAux]
  rw [if_true]
  rw [readBody_append body (c1 :: c2 :: rest) hbody]
  simp only []
  rw [hpar]

/-! ## Claims -/

/-- C1: every response the stub writes to the byte channel — for any command
dispatched, and for the empty reply to an `Unsupported` packet — consists of
exactly `$`, the body, `#`, and two lowercase hex digits of
`sum(body) mod 256`, with nothing else interleaved (commands that write no
response, such as `k`, write nothing at all). -/
theorem c1_response_framing :
    (∀ (σ : Type) (ad : Adapter σ) (s : σ) (tcs tot : ThreadId) (cmd : Command),
      (handleCmd ad s tcs tot cmd).out = [] ∨
      ∃ body, (handleCmd ad s tcs tot cmd).out = specFrame body) ∧
    (∀ (σ : Type) (ad : Adapter σ) (s : σ) (tcs tot : ThreadId) (body : List Nat),
      parseCmd body = .unsupported →
      (dispatchBody ad s tcs tot body).out = specFrame []) := by
  constructor
  · intro σ ad s tcs tot cmd
    cases cmd with
    | GetHaltReason =>
      right
      exact ⟨[83, 48, 48], by simp [handleCmd, writeResponse_eq_specFrame]⟩
    | ReadRegisters =>
      right
      cases hR : ad.read_registers s with
      | mk s' enc =>
        exact ⟨enc, by simp [handleCmd, hR, writeResponse_eq_specFrame]⟩
    | Kill => left; rfl
    | SetThread a t => right; exact ⟨[79, 75], by rw [handleCmd_setThread_eq]⟩
    | Continue =>
      right
      exact ⟨[83, 48, 53], by simp [handleCmd]; rw [RW.new_write_all_finish]⟩
    | ReadMem start len => right; exact ⟨_, by rw [handleCmd_readMem_eq]⟩
    | WriteMem start bytes => right; exact ⟨_, by rw [handleCmd_writeMem_eq]⟩
    | WriteRegisters raw => left; rfl
    | Step => left; rfl
  · intro σ ad s tcs tot body h
    simp [dispatchBody, h, writeResponse_eq_specFrame]

theorem c1_response_framing_witness :
    ((handleCmd nopAd () .all .any .GetHaltReason).out = [] ∨
      ∃ body, (handleCmd nopAd () .all .any .GetHaltReason).out = specFrame body) ∧
    (dispatchBody nopAd () .all .any [113]).out = specFrame [] :=
  ⟨c1_response_framing.1 Unit nopAd () .all .any .GetHaltReason,
   c1_response_framing.2 Unit nopAd () .all .any [113] (by decide)⟩

/-- C2: after a `$`-framed packet whose declared checksum parses, the engine
compares it with the wrapping sum of the body: on mismatch `poll` fails with
`Checksum { received, computed }` having written nothing (no ACK, no
dispatch, no adapter call); on match it writes the single ACK byte `+`
before any byte of the parse/dispatch output. -/
theorem c2_checksum_then_ack (σ : Type) (ad : Adapter σ) (n : Nat) (st : PollSt σ)
    (body : List Nat) (c1 c2 : Nat) (rest : List Nat) (received : Nat)
    (hbody : 35 ∉ body) (hpar : fromStrRadix16 8 [c1, c2] = some received) :
    (chk body ≠ received →
      pollAux ad (n + 1) (36 :: (body ++ 35 :: c1 :: c2 :: rest)) st =
        ([], .err (.Checksum received (chk body)), { st with buf := body }, [])) ∧
    (chk body = received →
      ∃ t, (pollAux ad (n + 1) (36 :: (body ++ 35 :: c1 :: c2 :: rest)) st).1 =
        43 :: ((dispatchBody ad st.tgt st.tcs st.tot body).out ++ t)) := by
  rw [pollAux_packet ad n st body c1 c2 rest received hbody hpar]
  constructor
  · intro hne
    rw [if_pos hne]
  · intro heq
    rw [if_neg (by simp [heq])]
    cases hd : (dispatchBody ad st.tgt st.tcs st.tot body).res with
    | ok =>
      refine ⟨(pollAux ad n rest ⟨(dispatchBody ad st.tgt st.tcs st.tot body).tgt, body,
        (dispatchBody ad st.tgt st.tcs st.tot body).tcs,
        (dispatchBody ad st.tgt st.tcs st.tot body).tot⟩).1, ?_⟩
      simp
    | err e => cases e <;> exact ⟨[], by simp⟩
    | stuck => exact ⟨[], by simp⟩

theorem c2_checksum_then_ack_witness :
    (chk [63] ≠ 0 →
      pollAux nopAd 1 (36 :: ([63] ++ 35 :: 48 :: 48 :: [])) st0 =
        ([], .err (.Checksum 0 (chk [63])), { st0 with buf := [63] }, [])) ∧
    (chk [63] = 0 →
      ∃ t, (pollAux nopAd 1 (36 :: ([63] ++ 35 :: 48 :: 48 :: [])) st0).1 =
        43 :: ((dispatchBody nopAd st0.tgt st0.tcs st0.tot [63]).out ++ t)) :=
  c2_checksum_then_ack Unit nopAd 0 st0 [63] 48 48 [] 0 (by decide) (by decide)

/-- C5: the source cannot process a parsed `Step` command at all: `handle_cmd`
has no match arm for `Command::Step` and the `StubCalls` trait declares no
`step` operation, so no adapter call is made and no `S05` (or any) response
is sent — contrary to the specified `Step → step(), reply S05`. -/
theorem c5_step_no_arm (σ : Type) (ad : Adapter σ) (s : σ) (tcs tot : ThreadId) :
    handleCmd ad s tcs tot .Step = ⟨s, tcs, tot, [], [], .missing⟩ := rfl

/-- C7 (failing input): `Command::parse` on the one-byte body `H` indexes
`buf[1]` out of bounds and panics instead of returning
`ParseError::Malformed` — the slip its own `FIXME: This can panic` comment
records. -/
theorem c7_parse_H_one_byte : parseCmd [72] = .oob := by decide

/-- C8: dispatching `SetThread { ContStep, X }` sets exactly the
`thread_cont_step` selector to `X`, and `SetThread { Other, X }` exactly
`thread_other`; the adapter state is untouched, no adapter call is made, and
the response body is `OK`. -/
theorem c8_setthread_effect (σ : Type) (ad : Adapter σ) (s : σ)
    (tcs tot : ThreadId) (X : ThreadId) :
    handleCmd ad s tcs tot (.SetThread .ContStep X) =
      ⟨s, X, tot, [], specFrame [79, 75], .ok⟩ ∧
    handleCmd ad s tcs tot (.SetThread .Other X) =
      ⟨s, tcs, X, [], specFrame [79, 75], .ok⟩ :=
  ⟨by rw [handleCmd_setThread_eq], by rw [handleCmd_setThread_eq]⟩

theorem c8_setthread_effect_witness :
    handleCmd nopAd () .all .any (.SetThread .ContStep (.thread 7)) =
      ⟨(), .thread 7, .any, [], specFrame [79, 75], .ok⟩ ∧
    handleCmd nopAd () .all .any (.SetThread .Other (.thread 7)) =
      ⟨(), .all, .thread 7, [], specFrame [79, 75], .ok⟩ :=
  c8_setthread_effect Unit nopAd () .all .any (.thread 7)

/-- C6: a well-formed `k` packet (its declared checksum decodes to `0x6b`,
the wrapping sum of the one-byte body `k`) makes the engine call the
adapter's `kill` exactly once and `poll` return success: the internal
`Killed` signal is converted to `Ok` at the `poll` boundary, nothing further
is read or written, and the only adapter call of the run is the one `kill`. -/
theorem c6_kill_poll_ok (σ : Type) (ad : Adapter σ) (n : Nat) (st : PollSt σ)
    (c1 c2 : Nat) (rest : List Nat)
    (hpar : fromStrRadix16 8 [c1, c2] = some 107) :
    pollAux ad (n + 1) (36 :: 107 :: 35 :: c1 :: c2 :: rest) st =
      ([43], .ok, ⟨ad.kill st.tgt, [107], st.tcs, st.tot⟩, [.killEv]) := by
  have h : (36 : Nat) :: 107 :: 35 :: c1 :: c2 :: rest =
      36 :: ([107] ++ 35 :: c1 :: c2 :: rest) := rfl
  rw [h, pollAux_packet ad n st [107] c1 c2 rest 107 (by decide) hpar]
  rw [if_neg (by decide)]
  simp [dispatchBody, parseCmd, handleCmd, HRes.toDRes]

theorem c6_kill_poll_ok_witness :
    pollAux nopAd 1 (36 :: 107 :: 35 :: 54 :: 98 :: [120]) st0 =
      ([43], .ok, ⟨(), [107], .all, .any⟩, [.killEv]) :=
  c6_kill_poll_ok Unit nopAd 0 st0 54 98 [120] (by decide)

/-- An adapter whose `write_mem` always fails (and `read_mem` always
succeeds), for concrete counterexamples. -/
def failWrAd : Adapter Unit :=
  ⟨fun s => (s, []), fun s _ => (s, some 144), fun s _ _ => (s, false),
   fun s => s, fun s => s⟩

/-- C3 (counterexample): for `ReadMem { start := 2^64 - 1, len := 2 }` with an
adapter for which every address is readable, the claim demands a body of
`2 * len = 4` hex characters; but `start..start+len` is a `u64` range whose
end wraps to `1`, so the source iterates zero addresses, performs no read,
and sends an empty body. -/
theorem c3_readmem_counterexample :
    (∀ (s : Unit) (a : Nat), ((nopAd.read_mem s a).2).isSome) ∧
    (handleCmd nopAd () .all .any (.ReadMem (2 ^ 64 - 1) 2)).out = specFrame [] ∧
    (handleCmd nopAd () .all .any (.ReadMem (2 ^ 64 - 1) 2)).trace = [] :=
  ⟨fun _ _ => rfl, by decide, by decide⟩

/-- C3 (amended): provided `start + len < 2^64` (the exclusive end of the
`u64` range is representable), a dispatched `ReadMem { start, len }` replies
with exactly the hex encoding of the bytes the read loop collects: when every
address in the window is readable that is `len` bytes (`2*len` hex
characters), and when the first unreadable address is `start + k` with
`k < len` it is exactly `k` bytes (`2*k` characters), the truncated response
carrying no error code; consecutive hex pairs decode back to the bytes read,
in address order. -/
theorem c3_readmem_amended (σ : Type) (ad : Adapter σ) (s : σ) (tcs tot : ThreadId)
    (start len : Nat) (hov : start + len < 2 ^ 64)
    (hbyte : ∀ (s' : σ) (a b : Nat), (ad.read_mem s' a).2 = some b → b < 256) :
    ((∀ (s' : σ) (a : Nat), start ≤ a → a < start + len → ((ad.read_mem s' a).2).isSome) →
      (readMemLoop ad s RW.new start len).2.2.1.length = len) ∧
    (∀ k : Nat, k < len →
      (∀ (s' : σ) (a : Nat), start ≤ a → a < start + k → ((ad.read_mem s' a).2).isSome) →
      (∀ s' : σ, (ad.read_mem s' (start + k)).2 = none) →
      (readMemLoop ad s RW.new start len).2.2.1.length = k) ∧
    (handleCmd ad s tcs tot (.ReadMem start len)).out =
      specFrame (writeAllHex ((readMemLoop ad s RW.new start len).2.2.1)) ∧
    (writeAllHex ((readMemLoop ad s RW.new start len).2.2.1)).length =
      2 * (readMemLoop ad s RW.new start len).2.2.1.length ∧
    hex_decode_in_place (writeAllHex ((readMemLoop ad s RW.new start len).2.2.1)) =
      some ((readMemLoop ad s RW.new start len).2.2.1) := by
  have hcnt : (start + len) % 2 ^ 64 - start = len := by
    rw [Nat.mod_eq_of_lt hov]; omega
  refine ⟨fun hall => readMemLoop_len_all ad len s RW.new start hall,
    fun k hk hok hfail => readMemLoop_len_partial ad len k s RW.new start hk hok hfail,
    ?_, writeAllHex_length _,
    hexDecode_writeAllHex _ (readMemLoop_bytes_lt ad hbyte len s RW.new start)⟩
  rw [handleCmd_readMem_eq, hcnt]

theorem c3_readmem_amended_witness :
    ((∀ (s' : Unit) (a : Nat), 0 ≤ a → a < 0 + 2 → ((nopAd.read_mem s' a).2).isSome) →
      (readMemLoop nopAd () RW.new 0 2).2.2.1.length = 2) ∧
    (∀ k : Nat, k < 2 →
      (∀ (s' : Unit) (a : Nat), 0 ≤ a → a < 0 + k → ((nopAd.read_mem s' a).2).isSome) →
      (∀ s' : Unit, (nopAd.read_mem s' (0 + k)).2 = none) →
      (readMemLoop nopAd () RW.new 0 2).2.2.1.length = k) ∧
    (handleCmd nopAd () .all .any (.ReadMem 0 2)).out =
      specFrame (writeAllHex ((readMemLoop nopAd () RW.new 0 2).2.2.1)) ∧
    (writeAllHex ((readMemLoop nopAd () RW.new 0 2).2.2.1)).length =
      2 * (readMemLoop nopAd () RW.new 0 2).2.2.1.length ∧
    hex_decode_in_place (writeAllHex ((readMemLoop nopAd () RW.new 0 2).2.2.1)) =
      some ((readMemLoop nopAd () RW.new 0 2).2.2.1) :=
  c3_readmem_amended Unit nopAd () .all .any 0 2 (by decide)
    (fun s' a b h => by simp [nopAd] at h; omega)

/-- C4 (counterexample): for `WriteMem { start := 2^64 - 1, bytes := [0xcc, 0xcc] }`
with an adapter whose every write fails, the claim demands that the first
byte be written (and fail, eliciting `E00`); but the `u64` range
`start..start+2` wraps and zips with the bytes to zero pairs, so the source
attempts no write at all and replies `OK`. -/
theorem c4_writemem_counterexample :
    (∀ (s : Unit) (a b : Nat), (failWrAd.write_mem s a b).2 = false) ∧
    (handleCmd failWrAd () .all .any (.WriteMem (2 ^ 64 - 1) [204, 204])).out =
      specFrame [79, 75] ∧
    (handleCmd failWrAd () .all .any (.WriteMem (2 ^ 64 - 1) [204, 204])).trace = [] :=
  ⟨fun _ _ _ => rfl, by decide, by decide⟩

/-- C4 (amended): provided `start + bytes.len() < 2^64`, a dispatched
`WriteMem { start, bytes }` attempts the writes one by one at consecutive
addresses starting at `start`: if every write succeeds it attempts exactly
one write per byte and replies `OK`; if the first failing write is at offset
`j` it attempts exactly the first `j + 1` writes (no further bytes are
written) and replies `E00`. -/
theorem c4_writemem_amended (σ : Type) (ad : Adapter σ) (s : σ) (tcs tot : ThreadId)
    (start : Nat) (bytes : List Nat) (hov : start + bytes.length < 2 ^ 64) :
    ((∀ (s' : σ) (i : Nat) (h : i < bytes.length),
        (ad.write_mem s' (start + i) (bytes.get ⟨i, h⟩)).2 = true) →
      handleCmd ad s tcs tot (.WriteMem start bytes) =
        ⟨(writeMemLoop ad s start bytes).1, tcs, tot, writeTrace start bytes,
          specFrame [79, 75], .ok⟩) ∧
    (∀ (j : Nat) (hj : j < bytes.length),
      (∀ (s' : σ) (i : Nat) (h : i < bytes.length), i < j →
        (ad.write_mem s' (start + i) (bytes.get ⟨i, h⟩)).2 = true) →
      (∀ s' : σ, (ad.write_mem s' (start + j) (bytes.get ⟨j, hj⟩)).2 = false) →
      handleCmd ad s tcs tot (.WriteMem start bytes) =
        ⟨(writeMemLoop ad s start bytes).1, tcs, tot,
          writeTrace start (bytes.take (j + 1)), specFrame [69, 48, 48], .ok⟩) := by
  have hcnt : (start + bytes.length) % 2 ^ 64 - start = bytes.length := by
    rw [Nat.mod_eq_of_lt hov]; omega
  have htake : bytes.take ((start + bytes.length) % 2 ^ 64 - start) = bytes := by
    rw [hcnt]; exact List.take_length bytes
  constructor
  · intro hall
    have hW := writeMemLoop_all ad bytes s start hall
    rw [handleCmd_writeMem_eq, htake, hW.1, hW.2]
    rfl
  · intro j hj hok hfail
    have hW := writeMemLoop_partial ad bytes j s start hj hok hfail
    rw [handleCmd_writeMem_eq, htake, hW.1, hW.2]
    rfl

theorem c4_writemem_amended_witness :
    ((∀ (s' : Unit) (i : Nat) (h : i < [204, 204].length),
        (nopAd.write_mem s' (16 + i) ([204, 204].get ⟨i, h⟩)).2 = true) →
      handleCmd nopAd () .all .any (.WriteMem 16 [204, 204]) =
        ⟨(writeMemLoop nopAd () 16 [204, 204]).1, .all, .any, writeTrace 16 [204, 204],
          specFrame [79, 75], .ok⟩) ∧
    (∀ (j : Nat) (hj : j < [204, 204].length),
      (∀ (s' : Unit) (i : Nat) (h : i < [204, 204].length), i < j →
        (nopAd.write_mem s' (16 + i) ([204, 204].get ⟨i, h⟩)).2 = true) →
      (∀ s' : Unit, (nopAd.write_mem s' (16 + j) ([204, 204].get ⟨j, hj⟩)).2 = false) →
      handleCmd nopAd () .all .any (.WriteMem 16 [204, 204]) =
        ⟨(writeMemLoop nopAd () 16 [204, 204]).1, .all, .any,
          writeTrace 16 ([204, 204].take (j + 1)), specFrame [69, 48, 48], .ok⟩) :=
  c4_writemem_amended Unit nopAd () .all .any 16 [204, 204] (by decide)

/-- C9: hex-decoding in place inverts the byte channel's hex encoder
(`write_all_hex`: two lowercase digits per byte, in array order) on every
byte sequence. -/
theorem c9_hex_decode_encode (b : List Nat) (hb : ∀ x ∈ b, x < 256) :
    hex_decode_in_place (writeAllHex b) = some b :=
  hexDecode_writeAllHex b hb

theorem c9_hex_decode_encode_witness :
    hex_decode_in_place (writeAllHex [0, 159, 255]) = some [0, 159, 255] :=
  c9_hex_decode_encode [0, 159, 255] (by decide)

theorem X86Registers.encode_eq_raw (bo : ByteOrderK) (r : X86Registers) :
    X86Registers.encode bo r = writeAllHex (X86Registers.raw bo r) := by
  simp only [X86Registers.encode, X86Registers.raw, encodeUInt, encodeArr10,
    writeAllHex_append]

theorem X86Registers.raw_lt (bo : ByteOrderK) (r : X86Registers) (hr : r.Valid) :
    ∀ x ∈ X86Registers.raw bo r, x < 256 := by
  obtain ⟨b1, b2, b3, b4, b5, b6, b7, b8, b9, b10, b11, b12, b13, b14, b15, b16,
    s1, s2, s3, s4, s5, s6, s7, s8, f1, f2, f3, f4, f5, f6, f7, f8,
    x1, x2, x3, x4, x5, x6, x7, x8, bm⟩ := hr
  simp only [X86Registers.raw, List.forall_mem_append, and_assoc]
  exact ⟨fun x hx => writeUInt_lt _ _ _ x hx,
    fun x hx => writeUInt_lt _ _ _ x hx,
    fun x hx => writeUInt_lt _ _ _ x hx,
    fun x hx => writeUInt_lt _ _ _ x hx,
    fun x hx => writeUInt_lt _ _ _ x hx,
    fun x hx => writeUInt_lt _ _ _ x hx,
    fun x hx => writeUInt_lt _ _ _ x hx,
    fun x hx => writeUInt_lt _ _ _ x hx,
    fun x hx => writeUInt_lt _ _ _ x hx,
    fun x hx => writeUInt_lt _ _ _ x hx,
    fun x hx => writeUInt_lt _ _ _ x hx,
    fun x hx => writeUInt_lt _ _ _ x hx,
    fun x hx => writeUInt_lt _ _ _ x hx,
    fun x hx => writeUInt_lt _ _ _ x hx,
    fun x hx => writeUInt_lt _ _ _ x hx,
    fun x hx => writeUInt_lt _ _ _ x hx,
    s1.2,
    s2.2,
    s3.2,
    s4.2,
    s5.2,
    s6.2,
    s7.2,
    s8.2,
    fun x hx => writeUInt_lt _ _ _ x hx,
    fun x hx => writeUInt_lt _ _ _ x hx,
    fun x hx => writeUInt_lt _ _ _ x hx,
    fun x hx => writeUInt_lt _ _ _ x hx,
    fun x hx => writeUInt_lt _ _ _ x hx,
    fun x hx => writeUInt_lt _ _ _ x hx,
    fun x hx => writeUInt_lt _ _ _ x hx,
    fun x hx => writeUInt_lt _ _ _ x hx,
    fun x hx => writeUInt_lt _ _ _ x hx,
    fun x hx => writeUInt_lt _ _ _ x hx,
    fun x hx => writeUInt_lt _ _ _ x hx,
    fun x hx => writeUInt_lt _ _ _ x hx,
    fun x hx => writeUInt_lt _ _ _ x hx,
    fun x hx => writeUInt_lt _ _ _ x hx,
    fun x hx => writeUInt_lt _ _ _ x hx,
    fun x hx => writeUInt_lt _ _ _ x hx,
    fun x hx => writeUInt_lt _ _ _ x hx⟩

/-- C10: for every `Register` implementation (`u32`, `u64`, `u128`,
`[u8; 10]`, and the `X86Registers` record) and either byte order, hex-decoding
the characters `Register::encode` emits and feeding the raw bytes to
`Register::decode` yields the original value (and consumes the whole
stream). -/
theorem c10_register_codec_roundtrip :
    (∀ (bo : ByteOrderK) (v : Nat), v < 2 ^ 32 →
      (hex_decode_in_place (encodeUInt bo 4 v)).bind (readUInt bo 4) = some (v, [])) ∧
    (∀ (bo : ByteOrderK) (v : Nat), v < 2 ^ 64 →
      (hex_decode_in_place (encodeUInt bo 8 v)).bind (readUInt bo 8) = some (v, [])) ∧
    (∀ (bo : ByteOrderK) (v : Nat), v < 2 ^ 128 →
      (hex_decode_in_place (encodeUInt bo 16 v)).bind (readUInt bo 16) = some (v, [])) ∧
    (∀ (a : List Nat), a.length = 10 → (∀ x ∈ a, x < 256) →
      (hex_decode_in_place (encodeArr10 a)).bind decodeArr10 = some (a, [])) ∧
    (∀ (bo : ByteOrderK) (r : X86Registers), r.Valid →
      (hex_decode_in_place (X86Registers.encode bo r)).bind (X86Registers.decode bo) =
        some (r, [])) := by
  have hu : ∀ (bo : ByteOrderK) (n v : Nat), v < 2 ^ (8 * n) →
      (hex_decode_in_place (encodeUInt bo n v)).bind (readUInt bo n) = some (v, []) := by
    intro bo n v hv
    unfold encodeUInt
    rw [hexDecode_writeAllHex _ (writeUInt_lt bo n v), Option.some_bind,
      ← List.append_nil (writeUInt bo n v), readUInt_writeUInt bo n v [] hv]
  refine ⟨fun bo v hv => hu bo 4 v (by norm_num at hv ⊢; omega),
    fun bo v hv => hu bo 8 v (by norm_num at hv ⊢; omega),
    fun bo v hv => hu bo 16 v (by norm_num at hv ⊢; omega),
    ?_, ?_⟩
  · intro a hlen ha
    unfold encodeArr10 decodeArr10
    rw [hexDecode_writeAllHex _ ha, Option.some_bind, ← List.append_nil a,
      readExact_append 10 a [] hlen]
    simp
  · intro bo r hr
    rw [X86Registers.encode_eq_raw,
      hexDecode_writeAllHex _ (X86Registers.raw_lt bo r hr), Option.some_bind,
      ← List.append_nil (X86Registers.raw bo r), X86Registers.decode_raw bo r hr []]

theorem c10_register_codec_roundtrip_witness :
    (hex_decode_in_place (encodeUInt .le 4 305419896)).bind (readUInt .le 4) =
      some (305419896, []) ∧
    (hex_decode_in_place (encodeUInt .be 8 2)).bind (readUInt .be 8) = some (2, []) ∧
    (hex_decode_in_place (encodeUInt .le 16 1)).bind (readUInt .le 16) = some (1, []) ∧
    (hex_decode_in_place (encodeArr10 [0, 1, 2, 3, 4, 5, 6, 7, 8, 9])).bind decodeArr10 =
      some ([0, 1, 2, 3, 4, 5, 6, 7, 8, 9], []) :=
  ⟨c10_register_codec_roundtrip.1 .le 305419896 (by norm_num),
   c10_register_codec_roundtrip.2.1 .be 2 (by norm_num),
   c10_register_codec_roundtrip.2.2.1 .le 1 (by norm_num),
   c10_register_codec_roundtrip.2.2.2.1 [0, 1, 2, 3, 4, 5, 6, 7, 8, 9]
     (by decide) (by decide)⟩
